import Mathlib

/-!
# Verification of the game-dev-studio simulation core

A shallow embedding of `game_dev_simulator/core/{models,balance,simulation}.py`
and the serialization bridge, with theorems settling the frozen claims.

Modelling conventions:

* Python `int` fields become `Int`; Python `float` fields become `ℚ`
  (every Python float value is a rational number).  The one genuinely
  irrational computation, `normalized_score ** 1.4` in `calculate_sales`,
  is embedded over `ℝ` with `Real.rpow`.
* Python objects (`Employee`, `GameProject`) are mutable and shared by
  reference: a project's `assigned_employees` list holds references into
  the same objects as `studio.employees`, and `advance_week` mutates them
  in place.  The embedding makes the reference semantics explicit with
  arenas: `GameSimulation.eheap : List Employee` and
  `GameSimulation.pheap : List GameProject` are the object stores, and all
  lists of employees/projects in the studio or in a project hold arena
  indices (`Nat`).  Reading an index out of range returns a default record;
  the Python program never produces such an index.
* Python dataclasses compare by field value (`__eq__` is generated), which
  is what `in` / `list.remove` use in `release_game` and
  `_recover_idle_employees`.  The embedding therefore compares *dereferenced
  values* (for projects, including the list of dereferenced assigned
  employees) at exactly those places.
* Randomness (`random.random`, `random.uniform`, `random.choice`) is an
  explicit oracle `StepRandom` passed to `run_step`; the draws that only
  feed `generate_reviews` never influence the simulation state and are not
  tracked.
-/

/-- `models.py` `Employee` dataclass (scalar fields). -/
structure Employee where
  name : String
  role : String
  skill_code : Int
  skill_design : Int
  skill_art : Int
  skill_sound : Int
  salary : Int
  fatigue : Int
deriving DecidableEq, Repr

/-- Default record returned when an arena index is out of range. -/
def defaultEmployee : Employee :=
  ⟨"", "", 0, 0, 0, 0, 0, 0⟩

/-- The four per-domain contributions returned by `Employee.work_on_task`. -/
structure WorkContrib where
  code : ℚ
  design : ℚ
  art : ℚ
  sound : ℚ
deriving DecidableEq, Repr

/-- `Employee.work_on_task`: efficiency factor from fatigue, the four
contributions, then fatigue grows (capped at 100).  Returns the updated
employee together with the contributions. -/
def Employee.work_on_task (e : Employee) (fatigue_increase : Int) :
    Employee × WorkContrib :=
  let fatigue_factor : ℚ := max 0.5 (1 - (e.fatigue : ℚ) / 100)
  let contributions : WorkContrib :=
    ⟨(e.skill_code : ℚ) * fatigue_factor,
     (e.skill_design : ℚ) * fatigue_factor,
     (e.skill_art : ℚ) * fatigue_factor,
     (e.skill_sound : ℚ) * fatigue_factor⟩
  ({ e with fatigue := min 100 (e.fatigue + fatigue_increase) }, contributions)

/-- `Employee.rest`: lowers fatigue by `hours`, floored at 0. -/
def Employee.rest (e : Employee) (hours : Int) : Employee :=
  { e with fatigue := max 0 (e.fatigue - hours) }

/-- `models.py` `MarketTrend`. -/
structure MarketTrend where
  trending_genres : List String
  popular_platforms : List String
deriving DecidableEq, Repr

/-- `MarketTrend.get_genre_multiplier`. -/
def MarketTrend.get_genre_multiplier (t : MarketTrend) (genre : String) : ℚ :=
  if genre ∈ t.trending_genres then 1.2 else 1.0

/-- `models.py` `GameProject`; `assigned_employees` holds arena indices. -/
structure GameProject where
  title : String
  genre : String
  platform : String
  complexity : Int
  progress : ℚ
  quality_code : ℚ
  quality_design : ℚ
  quality_art : ℚ
  quality_sound : ℚ
  status : String
  assigned_employees : List Nat
deriving DecidableEq, Repr

def defaultProject : GameProject :=
  ⟨"", "", "", 0, 0, 0, 0, 0, 0, "", []⟩

/-- `models.py` `GameStudio`; the three lists hold arena indices. -/
structure GameStudio where
  name : String
  cash : Int
  reputation : Int
  employees : List Nat
  projects : List Nat
  finished_projects : List Nat
deriving DecidableEq, Repr

/-- `balance.py` `BalanceConfig` with its default field values. -/
structure BalanceConfig where
  base_salary_programmer : Int := 25
  base_salary_designer : Int := 22
  base_salary_artist : Int := 20
  base_salary_sound : Int := 20
  base_salary_producer : Int := 30
  base_project_income_multiplier : ℚ := 1.0
  trend_genre_bonus : ℚ := 0.2
  trend_platform_bonus : ℚ := 0.1
  random_score_deviation : ℚ := 5.0
  fatigue_per_week : Int := 10
  rest_recovery_per_week : Int := 5
  event_chance_per_week : ℚ := 0.25
deriving DecidableEq, Repr

/-- `balance.py` `get_default_balance_config`. -/
def get_default_balance_config : BalanceConfig := {}

/-- `events.py` `GameEvent`. -/
structure GameEvent where
  name : String
  effect : Int := 0
deriving DecidableEq, Repr

/-- `balance.py` `calculate_game_score`.  The uniform jitter draw is the
explicit argument `random_jitter`. -/
def calculate_game_score (project : GameProject) (market_trend : MarketTrend)
    (studio : GameStudio) (config : BalanceConfig) (random_jitter : ℚ) : ℚ :=
  let avg_quality : ℚ :=
    (project.quality_code + project.quality_design + project.quality_art +
      project.quality_sound) / ((max 1 4 : Nat) : ℚ)
  let genre_multiplier : ℚ :=
    if project.genre ∈ market_trend.trending_genres then
      1 + config.trend_genre_bonus else 1.0
  let platform_multiplier : ℚ :=
    if project.platform ∈ market_trend.popular_platforms then
      1 + config.trend_platform_bonus else 1.0
  let reputation_factor : ℚ := 1 + (studio.reputation : ℚ) * 0.02
  let score := avg_quality * genre_multiplier * platform_multiplier * reputation_factor
  max 0.0 (min 100.0 (score + random_jitter))

/-- Python `int(x)` on a float: truncation toward zero. -/
noncomputable def pyTrunc (x : ℝ) : Int :=
  if 0 ≤ x then ⌊x⌋ else ⌈x⌉

/-- `balance.py` `calculate_sales`.  The uniform variance draw in
`[0.9, 1.1]` is the explicit argument `variance`. -/
noncomputable def calculate_sales (score : ℝ) (base_price : Int)
    (market_size : Int) (config : BalanceConfig) (variance : ℝ) : Int :=
  let normalized_score : ℝ := max 0.0 score / 50
  let demand_multiplier : ℝ := max 0.05 (normalized_score ^ (1.4 : ℝ))
  let potential_sales : ℝ :=
    (market_size : ℝ) * demand_multiplier * (config.base_project_income_multiplier : ℝ)
  let units_sold : Int := pyTrunc (potential_sales * variance)
  units_sold * base_price

/-- The random draws one `run_step` call can consume (state-relevant ones).
`jitter k` / `variance k` are the draws of the `k`-th release of the call;
`sickIdx` is the index `random.choice` picks in the employee list. -/
structure StepRandom where
  eventRoll : ℚ
  eventPick : ℚ
  sickIdx : Nat
  jitter : Nat → ℚ
  variance : Nat → ℚ

/-- `simulation.py` `GameSimulation` together with the two object arenas. -/
structure GameSimulation where
  studio : GameStudio
  current_week : Int
  current_year : Int
  market_trend : MarketTrend
  balance_config : BalanceConfig
  eheap : List Employee
  pheap : List GameProject

/-- Dereference an employee arena index. -/
def getE (s : GameSimulation) (i : Nat) : Employee :=
  s.eheap.getD i defaultEmployee

/-- Write an employee arena cell (no-op when out of range). -/
def setE (s : GameSimulation) (i : Nat) (e : Employee) : GameSimulation :=
  { s with eheap := s.eheap.set i e }

/-- Dereference a project arena index. -/
def getP (s : GameSimulation) (i : Nat) : GameProject :=
  s.pheap.getD i defaultProject

/-- Write a project arena cell (no-op when out of range). -/
def setP (s : GameSimulation) (i : Nat) (p : GameProject) : GameSimulation :=
  { s with pheap := s.pheap.set i p }

/-- The Python dataclass value of a project: its scalar fields plus the
*dereferenced* assigned employees.  This is what `GameProject.__eq__`
compares, hence what `in` / `list.remove` use in `release_game`. -/
structure ProjValue where
  title : String
  genre : String
  platform : String
  complexity : Int
  progress : ℚ
  quality_code : ℚ
  quality_design : ℚ
  quality_art : ℚ
  quality_sound : ℚ
  status : String
  assigned : List Employee
deriving DecidableEq, Repr

def projValue (s : GameSimulation) (pid : Nat) : ProjValue :=
  let p := getP s pid
  ⟨p.title, p.genre, p.platform, p.complexity, p.progress, p.quality_code,
   p.quality_design, p.quality_art, p.quality_sound, p.status,
   p.assigned_employees.map (getE s)⟩

/-- Remove the first element satisfying `pred` (Python `list.remove`). -/
def removeFirstP (pred : α → Bool) : List α → List α
  | [] => []
  | x :: xs => if pred x then xs else x :: removeFirstP pred xs

/-- `GameProject.apply_employee_work` (a method of the project object,
lifted to the state): employee works (fatigue grows), progress and quality
of project `pid` are updated. -/
def apply_employee_work (s : GameSimulation) (pid : Nat) (eid : Nat)
    (trend : MarketTrend) (fatigue_increase : Int) : GameSimulation :=
  let e := getE s eid
  let worked := e.work_on_task fatigue_increase
  let s₁ := setE s eid worked.1
  let c := worked.2
  let sum_contrib : ℚ := c.code + c.design + c.art + c.sound
  let primary : ℚ :=
    if e.role = "programmer" then c.code
    else if e.role = "designer" then c.design
    else if e.role = "artist" then c.art
    else if e.role = "sound" then c.sound
    else if e.role = "producer" then sum_contrib * 0.5
    else sum_contrib * 0.25
  let p := getP s₁ pid
  let trend_multiplier := trend.get_genre_multiplier p.genre
  let progress_gain := primary / ((max 1 p.complexity : Int) : ℚ) * 10 * trend_multiplier
  setP s₁ pid
    { p with
      progress := min 100.0 (p.progress + progress_gain)
      quality_code := p.quality_code + c.code * 0.1
      quality_design := p.quality_design + c.design * 0.1
      quality_art := p.quality_art + c.art * 0.1
      quality_sound := p.quality_sound + c.sound * 0.1 }

/-- `GameProject.advance_week`: no-op unless in development, otherwise every
assigned employee works on the project in list order. -/
def advance_week (s : GameSimulation) (pid : Nat) (trend : MarketTrend)
    (fatigue_increase : Int) : GameSimulation :=
  let p := getP s pid
  if p.status = "in_dev" then
    p.assigned_employees.foldl
      (fun s' eid => apply_employee_work s' pid eid trend fatigue_increase) s
  else s

/-- `GameSimulation._pay_salaries`. -/
def pay_salaries (s : GameSimulation) : GameSimulation :=
  let c := s.balance_config
  let role_base : String → Int := fun role =>
    if role = "programmer" then c.base_salary_programmer
    else if role = "designer" then c.base_salary_designer
    else if role = "artist" then c.base_salary_artist
    else if role = "sound" then c.base_salary_sound
    else if role = "producer" then c.base_salary_producer
    else c.base_salary_programmer
  let total_salary : Int :=
    s.studio.employees.foldl
      (fun acc eid =>
        let e := getE s eid
        acc + (if e.salary = 0 then role_base e.role else e.salary)) 0
  { s with studio := { s.studio with cash := s.studio.cash - total_salary } }

/-- The `for project in list(...): advance_week` loop of
`GameSimulation._advance_projects`. -/
def advance_projects_loop (s : GameSimulation) : GameSimulation :=
  s.studio.projects.foldl
    (fun s' pid =>
      if (getP s' pid).status = "in_dev" then
        advance_week s' pid s'.market_trend s'.balance_config.fatigue_per_week
      else s') s

/-- `GameSimulation._recover_idle_employees`: the `assigned` list is built
from *every* project in `studio.projects` (any status), and membership is
Python value equality of the live objects. -/
def recover_idle_employees (s : GameSimulation) : GameSimulation :=
  let assigned : List Nat :=
    s.studio.projects.flatMap (fun pid => (getP s pid).assigned_employees)
  s.studio.employees.foldl
    (fun s' eid =>
      let e := getE s' eid
      if e ∈ assigned.map (getE s') then s'
      else setE s' eid (e.rest s'.balance_config.rest_recovery_per_week)) s

/-- `GameSimulation._advance_projects`. -/
def advance_projects (s : GameSimulation) : GameSimulation :=
  recover_idle_employees (advance_projects_loop s)

/-- `GameSimulation._apply_market_trends`. -/
def apply_market_trends (s : GameSimulation) : GameSimulation :=
  s.studio.projects.foldl
    (fun s' pid =>
      let p := getP s' pid
      if p.status ≠ "in_dev" then s'
      else
        let bonus : ℚ :=
          if p.genre ∈ s'.market_trend.trending_genres then
            s'.balance_config.trend_genre_bonus else 0.0
        setP s' pid { p with progress := min 100.0 (p.progress + bonus * 2) }) s

/-- `GameSimulation._apply_event_effect`. -/
def apply_event_effect (s : GameSimulation) (event : GameEvent) : GameSimulation :=
  { s with studio := { s.studio with cash := s.studio.cash + event.effect } }

/-- `GameSimulation._process_random_events`. -/
def process_random_events (s : GameSimulation) (r : StepRandom) : GameSimulation :=
  if r.eventRoll > s.balance_config.event_chance_per_week then s
  else if r.eventPick < 0.4 ∧ s.studio.employees ≠ [] then
    let sickId := s.studio.employees.getD (r.sickIdx % s.studio.employees.length) 0
    let e := getE s sickId
    let s₁ := setE s sickId { e with fatigue := min 100 (e.fatigue + 20) }
    apply_event_effect s₁
      ⟨"Болезнь сотрудника", -(if e.salary = 0 then 10 else e.salary)⟩
  else if r.eventPick < 0.7 then
    apply_event_effect s ⟨"Контрактная работа", 200⟩
  else
    apply_event_effect s ⟨"Кризис рынка", -150⟩

/-- `GameSimulation.release_game`, for the `k`-th release of the current
step (its score jitter and sales variance draws are `jit` and `var`). -/
noncomputable def release_game (s : GameSimulation) (pid : Nat)
    (jit : ℚ) (var : ℚ) : GameSimulation :=
  let p := getP s pid
  let score := calculate_game_score p s.market_trend s.studio s.balance_config jit
  let revenue := calculate_sales (score : ℝ) 30 50000 s.balance_config (var : ℝ)
  let reputation_gain : Int := max 1 ⌊score / 20⌋
  let s₁ :=
    { s with studio := { s.studio with
        cash := s.studio.cash + revenue
        reputation := s.studio.reputation + reputation_gain } }
  let s₂ := setP s₁ pid { p with status := "released" }
  let released := projValue s₂ pid
  let prjs := s₂.studio.projects
  let prjs' :=
    if prjs.any (fun q => projValue s₂ q == released) then
      removeFirstP (fun q => projValue s₂ q == released) prjs
    else prjs
  { s₂ with studio := { s₂.studio with
      projects := prjs'
      finished_projects := s₂.studio.finished_projects ++ [pid] } }

/-- The `for project in list(...)` loop of `GameSimulation._check_releases`;
`k` counts the releases already performed in this step. -/
noncomputable def check_releases_aux (r : StepRandom) :
    List Nat → Nat → GameSimulation → GameSimulation
  | [], _, s => s
  | pid :: rest, k, s =>
    let p := getP s pid
    if p.status = "in_dev" ∧ p.progress ≥ 100 then
      check_releases_aux r rest (k + 1) (release_game s pid (r.jitter k) (r.variance k))
    else
      check_releases_aux r rest k s

/-- `GameSimulation._check_releases`. -/
noncomputable def check_releases (s : GameSimulation) (r : StepRandom) : GameSimulation :=
  check_releases_aux r s.studio.projects 0 s

/-- `GameSimulation._advance_calendar`. -/
def advance_calendar (s : GameSimulation) : GameSimulation :=
  let w := s.current_week + 1
  if w > 52 then
    { s with current_week := 1, current_year := s.current_year + 1 }
  else
    { s with current_week := w }

/-- `GameSimulation.run_step`: the fixed weekly pipeline. -/
noncomputable def run_step (s : GameSimulation) (r : StepRandom) : GameSimulation :=
  advance_calendar
    (check_releases
      (process_random_events
        (apply_market_trends
          (advance_projects
            (pay_salaries s))) r) r)

/-- `n` consecutive `run_step` calls drawing from the oracle sequence `rs`. -/
noncomputable def runSteps (s : GameSimulation) (rs : Nat → StepRandom) :
    Nat → GameSimulation
  | 0 => s
  | n + 1 => run_step (runSteps s rs n) (rs n)

/-! ## Serialization bridge (`to_dict` / `from_dict`)

The persisted document is a nested key-value structure.  Every scalar slot
is `Option PyVal`: `none` models a missing key, `some v` a present value of
runtime type `v`.  Python's `int(...)` / `float(...)` coercions raise on
non-coercible values, which the embedding models with `Except`.
(`float("...")` string parsing is not modelled and is treated as an error;
no claim depends on it.  `str(...)` of a non-string value is rendered with
Lean's `toString`; only its totality matters to the claims.) -/

/-- A persisted scalar value. -/
inductive PyVal where
  | pyInt (n : Int)
  | pyFloat (q : ℚ)
  | pyStr (s : String)
  | pyNone
deriving DecidableEq, Repr

/-- `str(data.get(key, default))`: total. -/
def pyToStr : Option PyVal → String → String
  | none, d => d
  | some (.pyStr s), _ => s
  | some (.pyInt n), _ => toString n
  | some (.pyFloat q), _ => toString q
  | some .pyNone, _ => "None"

/-- Python `int(float)`: truncation toward zero, exact on rationals. -/
def ratTrunc (q : ℚ) : Int :=
  if 0 ≤ q then ⌊q⌋ else ⌈q⌉

/-- `int(data.get(key, default))`: missing key yields the (integer) default;
a present value must be an int, a float, or an integer-literal string. -/
def pyToInt : Option PyVal → Int → Except String Int
  | none, d => .ok d
  | some (.pyInt n), _ => .ok n
  | some (.pyFloat q), _ => .ok (ratTrunc q)
  | some (.pyStr s), _ =>
    match s.toInt? with
    | some n => .ok n
    | none => .error "invalid literal for int()"
  | some .pyNone, _ => .error "int() argument must not be None"

/-- `float(data.get(key, default))`: missing key yields the default;
a present value must be numeric. -/
def pyToFloat : Option PyVal → ℚ → Except String ℚ
  | none, d => .ok d
  | some (.pyFloat q), _ => .ok q
  | some (.pyInt n), _ => .ok (n : ℚ)
  | some (.pyStr _), _ => .error "float() of a string is not modelled"
  | some .pyNone, _ => .error "float() argument must not be None"

/-- Serialized employee (`_employee_to_dict` shape). -/
structure EmployeeDoc where
  name : Option PyVal
  role : Option PyVal
  skill_code : Option PyVal
  skill_design : Option PyVal
  skill_art : Option PyVal
  skill_sound : Option PyVal
  salary : Option PyVal
  fatigue : Option PyVal
deriving DecidableEq, Repr

/-- Serialized project (`_project_to_dict` shape). -/
structure ProjectDoc where
  title : Option PyVal
  genre : Option PyVal
  platform : Option PyVal
  complexity : Option PyVal
  progress : Option PyVal
  quality_code : Option PyVal
  quality_design : Option PyVal
  quality_art : Option PyVal
  quality_sound : Option PyVal
  status : Option PyVal
  assigned_employees : Option (List PyVal)
deriving DecidableEq, Repr

/-- Serialized studio. -/
structure StudioDoc where
  name : Option PyVal
  cash : Option PyVal
  reputation : Option PyVal
  employees : Option (List EmployeeDoc)
  projects : Option (List ProjectDoc)
  finished_projects : Option (List ProjectDoc)
deriving DecidableEq, Repr

def emptyStudioDoc : StudioDoc :=
  ⟨none, none, none, none, none, none⟩

/-- Serialized market trend. -/
structure TrendDoc where
  trending_genres : Option (List String)
  popular_platforms : Option (List String)
deriving DecidableEq, Repr

/-- The whole persisted document (`to_dict` shape).  `balance_config` is
kept structured: `BalanceConfig(**d)` on a well-formed dict is the record
itself, and no claim exercises a malformed config dict. -/
structure SimDoc where
  current_week : Option PyVal
  current_year : Option PyVal
  balance_config : Option BalanceConfig
  market_trend : Option TrendDoc
  studio : Option StudioDoc
deriving DecidableEq, Repr

/-- `GameSimulation._employee_to_dict`. -/
def employee_to_dict (e : Employee) : EmployeeDoc :=
  ⟨some (.pyStr e.name), some (.pyStr e.role), some (.pyInt e.skill_code),
   some (.pyInt e.skill_design), some (.pyInt e.skill_art),
   some (.pyInt e.skill_sound), some (.pyInt e.salary), some (.pyInt e.fatigue)⟩

/-- `GameSimulation._project_to_dict`: each assigned employee is encoded as
the index of the *first* entry of `employees_data` with the same name and
role; employees with no such entry are silently skipped. -/
def project_to_dict (s : GameSimulation) (p : GameProject)
    (employees_data : List EmployeeDoc) : ProjectDoc :=
  let assigned_indices : List Int :=
    p.assigned_employees.filterMap (fun eid =>
      let e := getE s eid
      (employees_data.findIdx? (fun d =>
        d.name == some (.pyStr e.name) && d.role == some (.pyStr e.role))).map
        (fun i => (i : Int)))
  ⟨some (.pyStr p.title), some (.pyStr p.genre), some (.pyStr p.platform),
   some (.pyInt p.complexity), some (.pyFloat p.progress),
   some (.pyFloat p.quality_code), some (.pyFloat p.quality_design),
   some (.pyFloat p.quality_art), some (.pyFloat p.quality_sound),
   some (.pyStr p.status), some (assigned_indices.map (fun i => .pyInt i))⟩

/-- `GameSimulation.to_dict`. -/
def to_dict (s : GameSimulation) : SimDoc :=
  let employees_data := s.studio.employees.map (fun eid => employee_to_dict (getE s eid))
  let projects_data :=
    s.studio.projects.map (fun pid => project_to_dict s (getP s pid) employees_data)
  let finished_data :=
    s.studio.finished_projects.map (fun pid => project_to_dict s (getP s pid) employees_data)
  ⟨some (.pyInt s.current_week), some (.pyInt s.current_year),
   some s.balance_config,
   some ⟨some s.market_trend.trending_genres, some s.market_trend.popular_platforms⟩,
   some ⟨some (.pyStr s.studio.name), some (.pyInt s.studio.cash),
         some (.pyInt s.studio.reputation), some employees_data,
         some projects_data, some finished_data⟩⟩

/-- `GameSimulation._employee_from_dict`. -/
def employee_from_dict (d : EmployeeDoc) : Except String Employee := do
  let skill_code ← pyToInt d.skill_code 0
  let skill_design ← pyToInt d.skill_design 0
  let skill_art ← pyToInt d.skill_art 0
  let skill_sound ← pyToInt d.skill_sound 0
  let salary ← pyToInt d.salary 0
  let fatigue ← pyToInt d.fatigue 0
  return ⟨pyToStr d.name "", pyToStr d.role "programmer", skill_code,
          skill_design, skill_art, skill_sound, salary, fatigue⟩

/-- `GameSimulation._project_from_dict`: indices that are not ints or are
out of `[0, numEmployees)` are silently dropped.  In the restored
simulation the employee arena is the restored roster in order, so a valid
index *is* the arena reference. -/
def project_from_dict (d : ProjectDoc) (numEmployees : Nat) :
    Except String GameProject := do
  let complexity ← pyToInt d.complexity 0
  let progress ← pyToFloat d.progress 0.0
  let quality_code ← pyToFloat d.quality_code 0.0
  let quality_design ← pyToFloat d.quality_design 0.0
  let quality_art ← pyToFloat d.quality_art 0.0
  let quality_sound ← pyToFloat d.quality_sound 0.0
  let assigned : List Nat :=
    (d.assigned_employees.getD []).filterMap (fun v =>
      match v with
      | .pyInt n => if 0 ≤ n ∧ n < (numEmployees : Int) then some n.toNat else none
      | _ => none)
  return ⟨pyToStr d.title "Unnamed Project", pyToStr d.genre "",
          pyToStr d.platform "", complexity, progress, quality_code,
          quality_design, quality_art, quality_sound,
          pyToStr d.status "in_dev", assigned⟩

/-- `GameSimulation.from_dict`: rebuilds a fresh simulation; the employee
arena is the restored roster, the project arena the restored projects
followed by the restored finished projects. -/
def from_dict (d : SimDoc) : Except String GameSimulation := do
  let sd := d.studio.getD emptyStudioDoc
  let emps ← (sd.employees.getD []).mapM employee_from_dict
  let name := pyToStr sd.name "Unnamed Studio"
  let cash ← pyToInt sd.cash 0
  let reputation ← pyToInt sd.reputation 0
  let prjs ← (sd.projects.getD []).mapM (fun pd => project_from_dict pd emps.length)
  let fins ← (sd.finished_projects.getD []).mapM (fun pd => project_from_dict pd emps.length)
  let td := d.market_trend.getD ⟨none, none⟩
  let trend : MarketTrend := ⟨td.trending_genres.getD [], td.popular_platforms.getD []⟩
  let config := d.balance_config.getD get_default_balance_config
  let week ← pyToInt d.current_week 1
  let year ← pyToInt d.current_year 1
  return { studio :=
            ⟨name, cash, reputation, List.range emps.length,
             List.range prjs.length,
             (List.range fins.length).map (fun i => i + prjs.length)⟩
           current_week := week
           current_year := year
           market_trend := trend
           balance_config := config
           eheap := emps
           pheap := prjs ++ fins }

/-! ## Observable view

Dereferences every arena index, giving the pure data tree a Python caller
can observe on a simulation (scalar fields plus reference topology as
values). -/

structure ObsProject where
  title : String
  genre : String
  platform : String
  complexity : Int
  progress : ℚ
  quality_code : ℚ
  quality_design : ℚ
  quality_art : ℚ
  quality_sound : ℚ
  status : String
  assigned : List Employee
deriving DecidableEq, Repr

structure ObsSim where
  week : Int
  year : Int
  trend : MarketTrend
  config : BalanceConfig
  studio_name : String
  cash : Int
  reputation : Int
  roster : List Employee
  projects : List ObsProject
  finished : List ObsProject
deriving DecidableEq, Repr

def obsProject (s : GameSimulation) (pid : Nat) : ObsProject :=
  let p := getP s pid
  ⟨p.title, p.genre, p.platform, p.complexity, p.progress, p.quality_code,
   p.quality_design, p.quality_art, p.quality_sound, p.status,
   p.assigned_employees.map (getE s)⟩

def obs (s : GameSimulation) : ObsSim :=
  ⟨s.current_week, s.current_year, s.market_trend, s.balance_config,
   s.studio.name, s.studio.cash, s.studio.reputation,
   s.studio.employees.map (getE s),
   s.studio.projects.map (obsProject s),
   s.studio.finished_projects.map (obsProject s)⟩


/-! ## Auxiliary predicates and concrete fixtures used by the theorems -/

/-- Every studio-roster employee has fatigue in `[0, 100]`. -/
def FatOK (s : GameSimulation) : Prop :=
  ∀ eid ∈ s.studio.employees,
    0 ≤ (getE s eid).fatigue ∧ (getE s eid).fatigue ≤ 100

/-- Along a fold the running state keeps the configuration of the
start state; bundling it with `FatOK` lets the per-step bound hypotheses
refer to the start configuration. -/
def FatInv (c : BalanceConfig) (s : GameSimulation) : Prop :=
  s.balance_config = c ∧ FatOK s

/-- Witness for `calendar_wrap` at a concrete fresh simulation. -/
def witnessSim : GameSimulation :=
  { studio := ⟨"S", 1000, 0, [], [], []⟩
    current_week := 1
    current_year := 1
    market_trend := ⟨[], []⟩
    balance_config := get_default_balance_config
    eheap := []
    pheap := [] }

def witnessRandom : StepRandom :=
  ⟨1, 0, 0, fun _ => 0, fun _ => 0⟩

/-- Witness for `fatigue_invariant` at a concrete studio. -/
def fatigueWitnessSim : GameSimulation :=
  { studio := ⟨"S", 500, 0, [0], [0], []⟩
    current_week := 1
    current_year := 1
    market_trend := ⟨[], []⟩
    balance_config := get_default_balance_config
    eheap := [⟨"a", "programmer", 5, 2, 1, 1, 50, 40⟩]
    pheap := [⟨"G", "RPG", "PC", 10, 20, 0, 0, 0, 0, "in_dev", [0]⟩] }

/-- The employee references held by the projects of `studio.projects`
(the `assigned` list `_recover_idle_employees` builds; every status). -/
def assignedIds (s : GameSimulation) : List Nat :=
  s.studio.projects.flatMap (fun pid => (getP s pid).assigned_employees)

/-- All four skill scalars non-negative. -/
def SkillsNN (e : Employee) : Prop :=
  0 ≤ e.skill_code ∧ 0 ≤ e.skill_design ∧ 0 ≤ e.skill_art ∧ 0 ≤ e.skill_sound

/-- Equality of all four skill scalars (work only changes fatigue). -/
def sameSkills (e e' : Employee) : Prop :=
  e.skill_code = e'.skill_code ∧ e.skill_design = e'.skill_design ∧
  e.skill_art = e'.skill_art ∧ e.skill_sound = e'.skill_sound

/-- C4 counterexample fixture: the roster's only employee is referenced
solely by a *cancelled* project that is still in `studio.projects`. -/
def c4Sim : GameSimulation :=
  { studio := ⟨"S", 100, 0, [0], [0], []⟩
    current_week := 1
    current_year := 1
    market_trend := ⟨[], []⟩
    balance_config := get_default_balance_config
    eheap := [⟨"a", "programmer", 1, 1, 1, 1, 30, 10⟩]
    pheap := [⟨"G", "RPG", "PC", 5, 50, 0, 0, 0, 0, "cancelled", [0]⟩] }

/-- C4 witness fixture: one idle roster employee, one in-development
project with no assigned employees. -/
def c4WSim : GameSimulation :=
  { studio := ⟨"S", 100, 0, [0], [0], []⟩
    current_week := 1
    current_year := 1
    market_trend := ⟨[], []⟩
    balance_config := get_default_balance_config
    eheap := [⟨"a", "programmer", 1, 1, 1, 1, 20, 30⟩]
    pheap := [⟨"G", "RPG", "PC", 5, 10, 0, 0, 0, 0, "in_dev", []⟩] }

/-- C2/C3 counterexample fixture: a single in-development project at
progress 100 whose sole assigned employee has a negative skill; the
employee also is the studio's only (salary-50) roster member.  The
balance config zeroes the event chance, income multiplier and jitter. -/
def negSkillSim : GameSimulation :=
  { studio := ⟨"S", 1000, 0, [0], [0], []⟩
    current_week := 1
    current_year := 1
    market_trend := ⟨[], []⟩
    balance_config := { base_project_income_multiplier := 0
                        random_score_deviation := 0
                        event_chance_per_week := 0 }
    eheap := [⟨"a", "programmer", -10, 0, 0, 0, 50, 0⟩]
    pheap := [⟨"G", "RPG", "PC", 1, 100, 0, 0, 0, 0, "in_dev", [0]⟩] }

/-- Draw oracle whose event roll misses every event threshold used by the
fixtures. -/
def negSkillRandom : StepRandom :=
  ⟨1, 0, 0, fun _ => 0, fun _ => 0⟩

/-- C2 witness fixture: an in-development project at progress 100 with no
assigned employees. -/
def releaseWSim : GameSimulation :=
  { studio := ⟨"S", 1000, 0, [], [0], []⟩
    current_week := 1
    current_year := 1
    market_trend := ⟨[], []⟩
    balance_config := get_default_balance_config
    eheap := []
    pheap := [⟨"G", "RPG", "PC", 1, 100, 0, 0, 0, 0, "in_dev", []⟩] }

/-- C3 witness fixture: the zero-randomness scenario with a well-behaved
(non-negatively skilled) assigned employee. -/
def c3WSim : GameSimulation :=
  { studio := ⟨"S", 1000, 0, [0], [0], []⟩
    current_week := 1
    current_year := 1
    market_trend := ⟨[], []⟩
    balance_config := { base_project_income_multiplier := 0
                        random_score_deviation := 0
                        event_chance_per_week := 0 }
    eheap := [⟨"a", "programmer", 5, 0, 0, 0, 50, 0⟩]
    pheap := [⟨"G", "RPG", "PC", 1, 100, 0, 0, 0, 0, "in_dev", [0]⟩] }

/-- A persisted scalar accepted by Python's `int(...)` (or absent). -/
def wfInt : Option PyVal → Bool
  | none => true
  | some (.pyInt _) => true
  | some (.pyFloat _) => true
  | some (.pyStr s) => s.toInt?.isSome
  | some .pyNone => false

/-- A persisted scalar accepted by the modelled `float(...)` (or absent). -/
def wfFloat : Option PyVal → Bool
  | none => true
  | some (.pyInt _) => true
  | some (.pyFloat _) => true
  | some (.pyStr _) => false
  | some .pyNone => false

def wfEmployeeDoc (d : EmployeeDoc) : Bool :=
  wfInt d.skill_code && wfInt d.skill_design && wfInt d.skill_art &&
  wfInt d.skill_sound && wfInt d.salary && wfInt d.fatigue

def wfProjectDoc (d : ProjectDoc) : Bool :=
  wfInt d.complexity && wfFloat d.progress && wfFloat d.quality_code &&
  wfFloat d.quality_design && wfFloat d.quality_art && wfFloat d.quality_sound

def wfStudioDoc (sd : StudioDoc) : Bool :=
  wfInt sd.cash && wfInt sd.reputation &&
  (sd.employees.getD []).all wfEmployeeDoc &&
  (sd.projects.getD []).all wfProjectDoc &&
  (sd.finished_projects.getD []).all wfProjectDoc

def wfSimDoc (d : SimDoc) : Bool :=
  wfInt d.current_week && wfInt d.current_year &&
  wfStudioDoc (d.studio.getD emptyStudioDoc)

/-- C5 counterexample fixture: a document whose studio has `cash: None`. -/
def c5BadDoc : SimDoc :=
  ⟨none, none, none, none, some ⟨none, some .pyNone, none, none, none, none⟩⟩

/-- C5 witness fixture: the studio entry lacks `cash`; the one employee's
salary is the float `3.5` (coerced to the int 3 on restore). -/
def c5WDoc : SimDoc :=
  ⟨none, none, none, none,
   some ⟨some (.pyStr "S"), none, none,
     some [⟨some (.pyStr "a"), some (.pyStr "programmer"), some (.pyInt 3),
       none, none, none, some (.pyFloat (7/2)), some (.pyInt 0)⟩],
     none, none⟩⟩

/-- The roster as values (order of `studio.employees`). -/
def rosterVals (s : GameSimulation) : List Employee :=
  s.studio.employees.map (getE s)

/-- Index of the first roster member sharing name and role with `e` —
the matching rule `_project_to_dict` uses to encode references. -/
def firstMatchIdx (s : GameSimulation) (e : Employee) : Option Nat :=
  (rosterVals s).findIdx? (fun x => x.name == e.name && x.role == e.role)

/-- Every employee assigned to any (active or finished) project is
unambiguously recoverable through the name-and-role matching rule: the
first roster match of its name and role exists and carries its exact
value. -/
def RefOK (s : GameSimulation) : Prop :=
  ∀ pid ∈ s.studio.projects ++ s.studio.finished_projects,
    ∀ eid ∈ (getP s pid).assigned_employees,
      ∃ j, firstMatchIdx s (getE s eid) = some j ∧
        (rosterVals s).get? j = some (getE s eid)

/-- C1 counterexample fixture: the project's assigned employee (arena
cell 1) is not a studio roster member (the roster only references cell
0, whose name differs). -/
def c1Sim : GameSimulation :=
  { studio := ⟨"S", 10, 0, [0], [0], []⟩
    current_week := 1
    current_year := 1
    market_trend := ⟨[], []⟩
    balance_config := get_default_balance_config
    eheap := [⟨"a", "programmer", 1, 1, 1, 1, 20, 0⟩,
              ⟨"b", "artist", 2, 2, 2, 2, 30, 0⟩]
    pheap := [⟨"G", "RPG", "PC", 5, 10, 0, 0, 0, 0, "in_dev", [1]⟩] }

/-- C1 witness fixture: one roster employee assigned to the one project. -/
def c1WSim : GameSimulation :=
  { studio := ⟨"S", 10, 0, [0], [0], []⟩
    current_week := 3
    current_year := 2
    market_trend := ⟨["RPG"], ["PC"]⟩
    balance_config := get_default_balance_config
    eheap := [⟨"a", "programmer", 1, 2, 3, 4, 20, 5⟩]
    pheap := [⟨"G", "RPG", "PC", 5, 10, 1, 2, 3, 4, "in_dev", [0]⟩] }

def restoreP (s : GameSimulation) (pid : Nat) : GameProject :=
  { getP s pid with
    assigned_employees := (getP s pid).assigned_employees.filterMap
      (fun eid => firstMatchIdx s (getE s eid)) }

/-- The simulation that `from_dict (to_dict s)` produces: fresh dense
arenas holding the dereferenced roster and the restored projects. -/
def restoreSim (s : GameSimulation) : GameSimulation :=
  GameSimulation.mk
    ⟨s.studio.name, s.studio.cash, s.studio.reputation,
     List.range (rosterVals s).length,
     List.range (s.studio.projects.map (restoreP s)).length,
     (List.range (s.studio.finished_projects.map (restoreP s)).length).map
       (fun i => i + (s.studio.projects.map (restoreP s)).length)⟩
    s.current_week s.current_year
    ⟨s.market_trend.trending_genres, s.market_trend.popular_platforms⟩
    s.balance_config
    (rosterVals s)
    (s.studio.projects.map (restoreP s) ++
      s.studio.finished_projects.map (restoreP s))

/-! ## Frame lemmas: which state components each pipeline stage preserves -/

theorem foldl_proj_eq {σ α β : Type _} (f : σ → α → σ) (g : σ → β)
    (hstep : ∀ s a, g (f s a) = g s) :
    ∀ (l : List α) (s : σ), g (l.foldl f s) = g s := by
  intro l
  induction l with
  | nil => intro s; rfl
  | cons a t ih => intro s; rw [List.foldl_cons, ih, hstep]

theorem foldl_invariant {σ α : Type _} (f : σ → α → σ) (P : σ → Prop)
    (hstep : ∀ s a, P s → P (f s a)) :
    ∀ (l : List α) (s : σ), P s → P (l.foldl f s) := by
  intro l
  induction l with
  | nil => intro s h; exact h
  | cons a t ih => intro s h; exact ih (f s a) (hstep s a h)

theorem setE_frame (s : GameSimulation) (i : Nat) (e : Employee) :
    (setE s i e).studio = s.studio ∧ (setE s i e).current_week = s.current_week ∧
    (setE s i e).current_year = s.current_year ∧
    (setE s i e).market_trend = s.market_trend ∧
    (setE s i e).balance_config = s.balance_config ∧
    (setE s i e).pheap = s.pheap :=
  ⟨rfl, rfl, rfl, rfl, rfl, rfl⟩

theorem setP_frame (s : GameSimulation) (i : Nat) (p : GameProject) :
    (setP s i p).studio = s.studio ∧ (setP s i p).current_week = s.current_week ∧
    (setP s i p).current_year = s.current_year ∧
    (setP s i p).market_trend = s.market_trend ∧
    (setP s i p).balance_config = s.balance_config ∧
    (setP s i p).eheap = s.eheap :=
  ⟨rfl, rfl, rfl, rfl, rfl, rfl⟩

theorem apply_employee_work_frame (s : GameSimulation) (pid eid : Nat)
    (t : MarketTrend) (inc : Int) :
    (apply_employee_work s pid eid t inc).studio = s.studio ∧
    (apply_employee_work s pid eid t inc).current_week = s.current_week ∧
    (apply_employee_work s pid eid t inc).current_year = s.current_year ∧
    (apply_employee_work s pid eid t inc).market_trend = s.market_trend ∧
    (apply_employee_work s pid eid t inc).balance_config = s.balance_config :=
  ⟨rfl, rfl, rfl, rfl, rfl⟩

theorem advance_week_frame (s : GameSimulation) (pid : Nat)
    (t : MarketTrend) (inc : Int) :
    (advance_week s pid t inc).studio = s.studio ∧
    (advance_week s pid t inc).current_week = s.current_week ∧
    (advance_week s pid t inc).current_year = s.current_year ∧
    (advance_week s pid t inc).market_trend = s.market_trend ∧
    (advance_week s pid t inc).balance_config = s.balance_config := by
  unfold advance_week
  by_cases h : (getP s pid).status = "in_dev"
  · rw [if_pos h]
    exact ⟨foldl_proj_eq _ (fun x => x.studio)
            (fun s' a => (apply_employee_work_frame s' pid a t inc).1) _ s,
          foldl_proj_eq _ (fun x => x.current_week)
            (fun s' a => (apply_employee_work_frame s' pid a t inc).2.1) _ s,
          foldl_proj_eq _ (fun x => x.current_year)
            (fun s' a => (apply_employee_work_frame s' pid a t inc).2.2.1) _ s,
          foldl_proj_eq _ (fun x => x.market_trend)
            (fun s' a => (apply_employee_work_frame s' pid a t inc).2.2.2.1) _ s,
          foldl_proj_eq _ (fun x => x.balance_config)
            (fun s' a => (apply_employee_work_frame s' pid a t inc).2.2.2.2) _ s⟩
  · rw [if_neg h]; exact ⟨rfl, rfl, rfl, rfl, rfl⟩

theorem pay_salaries_frame (s : GameSimulation) :
    (pay_salaries s).studio.name = s.studio.name ∧
    (pay_salaries s).studio.reputation = s.studio.reputation ∧
    (pay_salaries s).studio.employees = s.studio.employees ∧
    (pay_salaries s).studio.projects = s.studio.projects ∧
    (pay_salaries s).studio.finished_projects = s.studio.finished_projects ∧
    (pay_salaries s).current_week = s.current_week ∧
    (pay_salaries s).current_year = s.current_year ∧
    (pay_salaries s).market_trend = s.market_trend ∧
    (pay_salaries s).balance_config = s.balance_config ∧
    (pay_salaries s).eheap = s.eheap ∧
    (pay_salaries s).pheap = s.pheap :=
  ⟨rfl, rfl, rfl, rfl, rfl, rfl, rfl, rfl, rfl, rfl, rfl⟩

theorem advance_projects_loop_frame (s : GameSimulation) :
    (advance_projects_loop s).studio = s.studio ∧
    (advance_projects_loop s).current_week = s.current_week ∧
    (advance_projects_loop s).current_year = s.current_year ∧
    (advance_projects_loop s).market_trend = s.market_trend ∧
    (advance_projects_loop s).balance_config = s.balance_config := by
  unfold advance_projects_loop
  refine ⟨?_, ?_, ?_, ?_, ?_⟩ <;>
    refine foldl_proj_eq _ _ (fun s' a => ?_) _ s <;>
    · by_cases h : (getP s' a).status = "in_dev"
      · rw [if_pos h]
        first
        | exact (advance_week_frame s' a s'.market_trend s'.balance_config.fatigue_per_week).1
        | exact (advance_week_frame s' a s'.market_trend s'.balance_config.fatigue_per_week).2.1
        | exact (advance_week_frame s' a s'.market_trend s'.balance_config.fatigue_per_week).2.2.1
        | exact (advance_week_frame s' a s'.market_trend s'.balance_config.fatigue_per_week).2.2.2.1
        | exact (advance_week_frame s' a s'.market_trend s'.balance_config.fatigue_per_week).2.2.2.2
      · rw [if_neg h]

theorem recover_idle_employees_frame (s : GameSimulation) :
    (recover_idle_employees s).studio = s.studio ∧
    (recover_idle_employees s).current_week = s.current_week ∧
    (recover_idle_employees s).current_year = s.current_year ∧
    (recover_idle_employees s).market_trend = s.market_trend ∧
    (recover_idle_employees s).balance_config = s.balance_config ∧
    (recover_idle_employees s).pheap = s.pheap := by
  unfold recover_idle_employees
  refine ⟨?_, ?_, ?_, ?_, ?_, ?_⟩ <;>
    refine foldl_proj_eq _ _ (fun s' a => ?_) _ s <;>
    · by_cases h : getE s' a ∈
        (s.studio.projects.flatMap fun pid => (getP s pid).assigned_employees).map (getE s')
      · rw [if_pos h]
      · rw [if_neg h]; rfl

theorem advance_projects_frame (s : GameSimulation) :
    (advance_projects s).studio = s.studio ∧
    (advance_projects s).current_week = s.current_week ∧
    (advance_projects s).current_year = s.current_year ∧
    (advance_projects s).market_trend = s.market_trend ∧
    (advance_projects s).balance_config = s.balance_config := by
  unfold advance_projects
  obtain ⟨h1, h2, h3, h4, h5⟩ := advance_projects_loop_frame s
  obtain ⟨g1, g2, g3, g4, g5, _⟩ := recover_idle_employees_frame (advance_projects_loop s)
  exact ⟨g1.trans h1, g2.trans h2, g3.trans h3, g4.trans h4, g5.trans h5⟩

theorem apply_market_trends_frame (s : GameSimulation) :
    (apply_market_trends s).studio = s.studio ∧
    (apply_market_trends s).current_week = s.current_week ∧
    (apply_market_trends s).current_year = s.current_year ∧
    (apply_market_trends s).market_trend = s.market_trend ∧
    (apply_market_trends s).balance_config = s.balance_config ∧
    (apply_market_trends s).eheap = s.eheap := by
  unfold apply_market_trends
  refine ⟨?_, ?_, ?_, ?_, ?_, ?_⟩ <;>
    refine foldl_proj_eq _ _ (fun s' a => ?_) _ s <;>
    · by_cases h : (getP s' a).status ≠ "in_dev"
      · rw [if_pos h]
      · rw [if_neg h]; rfl

theorem apply_event_effect_frame (s : GameSimulation) (ev : GameEvent) :
    (apply_event_effect s ev).studio.name = s.studio.name ∧
    (apply_event_effect s ev).studio.reputation = s.studio.reputation ∧
    (apply_event_effect s ev).studio.employees = s.studio.employees ∧
    (apply_event_effect s ev).studio.projects = s.studio.projects ∧
    (apply_event_effect s ev).studio.finished_projects = s.studio.finished_projects ∧
    (apply_event_effect s ev).current_week = s.current_week ∧
    (apply_event_effect s ev).current_year = s.current_year ∧
    (apply_event_effect s ev).market_trend = s.market_trend ∧
    (apply_event_effect s ev).balance_config = s.balance_config ∧
    (apply_event_effect s ev).eheap = s.eheap ∧
    (apply_event_effect s ev).pheap = s.pheap :=
  ⟨rfl, rfl, rfl, rfl, rfl, rfl, rfl, rfl, rfl, rfl, rfl⟩

theorem process_random_events_frame (s : GameSimulation) (r : StepRandom) :
    (process_random_events s r).studio.name = s.studio.name ∧
    (process_random_events s r).studio.reputation = s.studio.reputation ∧
    (process_random_events s r).studio.employees = s.studio.employees ∧
    (process_random_events s r).studio.projects = s.studio.projects ∧
    (process_random_events s r).studio.finished_projects = s.studio.finished_projects ∧
    (process_random_events s r).current_week = s.current_week ∧
    (process_random_events s r).current_year = s.current_year ∧
    (process_random_events s r).market_trend = s.market_trend ∧
    (process_random_events s r).balance_config = s.balance_config ∧
    (process_random_events s r).pheap = s.pheap := by
  unfold process_random_events
  by_cases h1 : r.eventRoll > s.balance_config.event_chance_per_week
  · rw [if_pos h1]; exact ⟨rfl, rfl, rfl, rfl, rfl, rfl, rfl, rfl, rfl, rfl⟩
  · rw [if_neg h1]
    by_cases h2 : r.eventPick < 0.4 ∧ s.studio.employees ≠ []
    · rw [if_pos h2]; exact ⟨rfl, rfl, rfl, rfl, rfl, rfl, rfl, rfl, rfl, rfl⟩
    · rw [if_neg h2]
      by_cases h3 : r.eventPick < 0.7
      · rw [if_pos h3]; exact ⟨rfl, rfl, rfl, rfl, rfl, rfl, rfl, rfl, rfl, rfl⟩
      · rw [if_neg h3]; exact ⟨rfl, rfl, rfl, rfl, rfl, rfl, rfl, rfl, rfl, rfl⟩

theorem release_game_frame (s : GameSimulation) (pid : Nat) (jit var : ℚ) :
    (release_game s pid jit var).studio.name = s.studio.name ∧
    (release_game s pid jit var).studio.employees = s.studio.employees ∧
    (release_game s pid jit var).current_week = s.current_week ∧
    (release_game s pid jit var).current_year = s.current_year ∧
    (release_game s pid jit var).market_trend = s.market_trend ∧
    (release_game s pid jit var).balance_config = s.balance_config ∧
    (release_game s pid jit var).eheap = s.eheap := by
  unfold release_game
  by_cases h : (setP { s with studio := { s.studio with
      cash := s.studio.cash +
        calculate_sales
          ((calculate_game_score (getP s pid) s.market_trend s.studio s.balance_config jit : ℚ) : ℝ)
          30 50000 s.balance_config (var : ℝ)
      reputation := s.studio.reputation +
        max 1 ⌊calculate_game_score (getP s pid) s.market_trend s.studio s.balance_config jit / 20⌋ } }
      pid { getP s pid with status := "released" }).studio.projects.any
      (fun q => projValue (setP { s with studio := { s.studio with
        cash := s.studio.cash +
          calculate_sales
            ((calculate_game_score (getP s pid) s.market_trend s.studio s.balance_config jit : ℚ) : ℝ)
            30 50000 s.balance_config (var : ℝ)
        reputation := s.studio.reputation +
          max 1 ⌊calculate_game_score (getP s pid) s.market_trend s.studio s.balance_config jit / 20⌋ } }
        pid { getP s pid with status := "released" }) q ==
        projValue (setP { s with studio := { s.studio with
          cash := s.studio.cash +
            calculate_sales
              ((calculate_game_score (getP s pid) s.market_trend s.studio s.balance_config jit : ℚ) : ℝ)
              30 50000 s.balance_config (var : ℝ)
          reputation := s.studio.reputation +
            max 1 ⌊calculate_game_score (getP s pid) s.market_trend s.studio s.balance_config jit / 20⌋ } }
          pid { getP s pid with status := "released" }) pid) <;>
    simp only [h, if_true, if_false] <;> exact ⟨rfl, rfl, rfl, rfl, rfl, rfl, rfl⟩

theorem check_releases_aux_frame (r : StepRandom) :
    ∀ (l : List Nat) (k : Nat) (s : GameSimulation),
    (check_releases_aux r l k s).studio.name = s.studio.name ∧
    (check_releases_aux r l k s).studio.employees = s.studio.employees ∧
    (check_releases_aux r l k s).current_week = s.current_week ∧
    (check_releases_aux r l k s).current_year = s.current_year ∧
    (check_releases_aux r l k s).market_trend = s.market_trend ∧
    (check_releases_aux r l k s).balance_config = s.balance_config ∧
    (check_releases_aux r l k s).eheap = s.eheap := by
  intro l
  induction l with
  | nil => intro k s; exact ⟨rfl, rfl, rfl, rfl, rfl, rfl, rfl⟩
  | cons pid rest ih =>
    intro k s
    unfold check_releases_aux
    by_cases h : (getP s pid).status = "in_dev" ∧ (getP s pid).progress ≥ 100
    · rw [if_pos h]
      obtain ⟨a1, a2, a3, a4, a5, a6, a7⟩ :=
        ih (k + 1) (release_game s pid (r.jitter k) (r.variance k))
      obtain ⟨b1, b2, b3, b4, b5, b6, b7⟩ :=
        release_game_frame s pid (r.jitter k) (r.variance k)
      exact ⟨a1.trans b1, a2.trans b2, a3.trans b3, a4.trans b4, a5.trans b5,
             a6.trans b6, a7.trans b7⟩
    · rw [if_neg h]; exact ih k s

theorem check_releases_frame (s : GameSimulation) (r : StepRandom) :
    (check_releases s r).studio.name = s.studio.name ∧
    (check_releases s r).studio.employees = s.studio.employees ∧
    (check_releases s r).current_week = s.current_week ∧
    (check_releases s r).current_year = s.current_year ∧
    (check_releases s r).market_trend = s.market_trend ∧
    (check_releases s r).balance_config = s.balance_config ∧
    (check_releases s r).eheap = s.eheap :=
  check_releases_aux_frame r s.studio.projects 0 s

theorem advance_calendar_frame (s : GameSimulation) :
    (advance_calendar s).studio = s.studio ∧
    (advance_calendar s).market_trend = s.market_trend ∧
    (advance_calendar s).balance_config = s.balance_config ∧
    (advance_calendar s).eheap = s.eheap ∧
    (advance_calendar s).pheap = s.pheap := by
  unfold advance_calendar
  by_cases h : s.current_week + 1 > 52
  · rw [if_pos h]; exact ⟨rfl, rfl, rfl, rfl, rfl⟩
  · rw [if_neg h]; exact ⟨rfl, rfl, rfl, rfl, rfl⟩

theorem advance_calendar_calendar (s : GameSimulation) :
    (advance_calendar s).current_week =
      (if s.current_week + 1 > 52 then 1 else s.current_week + 1) ∧
    (advance_calendar s).current_year =
      (if s.current_week + 1 > 52 then s.current_year + 1 else s.current_year) := by
  unfold advance_calendar
  by_cases h : s.current_week + 1 > 52
  · rw [if_pos h, if_pos h, if_pos h]; exact ⟨rfl, rfl⟩
  · rw [if_neg h, if_neg h, if_neg h]; exact ⟨rfl, rfl⟩

/-! ## Calendar behaviour of one step -/

theorem run_step_calendar (s : GameSimulation) (r : StepRandom) :
    (run_step s r).current_week =
      (if s.current_week + 1 > 52 then 1 else s.current_week + 1) ∧
    (run_step s r).current_year =
      (if s.current_week + 1 > 52 then s.current_year + 1 else s.current_year) := by
  unfold run_step
  set mid := check_releases
    (process_random_events (apply_market_trends (advance_projects (pay_salaries s))) r) r
    with hmid
  have hweek : mid.current_week = s.current_week := by
    rw [hmid]
    rw [(check_releases_frame _ r).2.2.1,
        (process_random_events_frame _ r).2.2.2.2.2.1,
        (apply_market_trends_frame _).2.1,
        (advance_projects_frame _).2.1,
        (pay_salaries_frame _).2.2.2.2.2.1]
  have hyear : mid.current_year = s.current_year := by
    rw [hmid]
    rw [(check_releases_frame _ r).2.2.2.1,
        (process_random_events_frame _ r).2.2.2.2.2.2.1,
        (apply_market_trends_frame _).2.2.1,
        (advance_projects_frame _).2.2.1,
        (pay_salaries_frame _).2.2.2.2.2.2.1]
  obtain ⟨h1, h2⟩ := advance_calendar_calendar mid
  rw [h1, h2, hweek, hyear]
  exact ⟨rfl, rfl⟩

/-- C9: starting from `current_week = 1`, the `k`-th of 52 consecutive
`run_step` calls leaves `current_week = k + 1` for `k < 52` and
`current_week = 1` with the year incremented (exactly on the 52nd call)
for `k = 52`; throughout, the week stays in `[1, 52]`. -/
theorem calendar_wrap (s : GameSimulation) (rs : Nat → StepRandom)
    (h1 : s.current_week = 1) :
    ∀ k ≤ 52,
      (runSteps s rs k).current_week = (if k = 52 then 1 else (k : Int) + 1) ∧
      (runSteps s rs k).current_year =
        (if k = 52 then s.current_year + 1 else s.current_year) ∧
      1 ≤ (runSteps s rs k).current_week ∧ (runSteps s rs k).current_week ≤ 52 := by
  intro k
  induction k with
  | zero =>
    intro _
    refine ⟨by simpa [runSteps] using h1, by simp [runSteps], ?_, ?_⟩ <;>
      simp [runSteps, h1]
  | succ k ih =>
    intro hk
    have hk' : k ≤ 52 := Nat.le_of_succ_le hk
    have hk52 : k ≠ 52 := by omega
    obtain ⟨hw, hy, _, _⟩ := ih hk'
    rw [if_neg hk52] at hw hy
    have hrs : runSteps s rs (k + 1) = run_step (runSteps s rs k) (rs k) := rfl
    obtain ⟨cw, cy⟩ := run_step_calendar (runSteps s rs k) (rs k)
    rw [hrs, cw, cy, hw, hy]
    by_cases hlast : k + 1 = 52
    · have hcond : (k : Int) + 1 + 1 > 52 := by omega
      simp only [if_pos hcond, if_pos hlast]
      refine ⟨?_, ?_, ?_, ?_⟩ <;> first | trivial | norm_num
    · have hcond : ¬ ((k : Int) + 1 + 1 > 52) := by omega
      simp only [if_neg hcond, if_neg hlast]
      refine ⟨?_, ?_, ?_, ?_⟩ <;> first | trivial | (push_cast; omega)



theorem calendar_wrap_witness :
    witnessSim.current_week = 1 ∧
    ((runSteps witnessSim (fun _ => witnessRandom) 52).current_week =
        (if 52 = 52 then 1 else (52 : Int) + 1) ∧
      (runSteps witnessSim (fun _ => witnessRandom) 52).current_year =
        (if 52 = 52 then witnessSim.current_year + 1 else witnessSim.current_year) ∧
      1 ≤ (runSteps witnessSim (fun _ => witnessRandom) 52).current_week ∧
      (runSteps witnessSim (fun _ => witnessRandom) 52).current_week ≤ 52) :=
  ⟨rfl, calendar_wrap witnessSim (fun _ => witnessRandom) rfl 52 le_rfl⟩

/-- C10: on a triggered event tick with an empty roster the sickness branch
is unreachable: a second draw below 0.7 (in particular also below 0.4)
lands in the contract branch (+200), any other draw in the market-crisis
branch (−150); the tick is never cash-neutral. -/
theorem empty_roster_event_tick (s : GameSimulation) (r : StepRandom)
    (hemp : s.studio.employees = [])
    (htrig : ¬ r.eventRoll > s.balance_config.event_chance_per_week) :
    ((r.eventPick < 0.7 →
        (process_random_events s r).studio.cash = s.studio.cash + 200) ∧
     (¬ r.eventPick < 0.7 →
        (process_random_events s r).studio.cash = s.studio.cash - 150) ∧
     (process_random_events s r).studio.cash ≠ s.studio.cash) := by
  unfold process_random_events
  rw [if_neg htrig]
  have h40 : ¬ (r.eventPick < 0.4 ∧ s.studio.employees ≠ []) := by
    rintro ⟨-, hne⟩; exact hne hemp
  rw [if_neg h40]
  by_cases h7 : r.eventPick < 0.7
  · rw [if_pos h7]
    refine ⟨fun _ => rfl, fun hc => absurd h7 hc, ?_⟩
    show s.studio.cash + 200 ≠ s.studio.cash
    omega
  · rw [if_neg h7]
    refine ⟨fun hc => absurd hc h7, fun _ => ?_, ?_⟩
    · show s.studio.cash + (-150) = s.studio.cash - 150
      omega
    · show s.studio.cash + (-150) ≠ s.studio.cash
      omega

theorem empty_roster_event_tick_witness :
    witnessSim.studio.employees = [] ∧
    ¬ (witnessRandom.eventRoll / 8) >
        witnessSim.balance_config.event_chance_per_week ∧
    ((witnessRandom.eventPick < 0.7 →
        (process_random_events witnessSim
          { witnessRandom with eventRoll := witnessRandom.eventRoll / 8 }).studio.cash =
          witnessSim.studio.cash + 200) ∧
     ((process_random_events witnessSim
          { witnessRandom with eventRoll := witnessRandom.eventRoll / 8 }).studio.cash ≠
        witnessSim.studio.cash)) := by
  have hroll : ¬ ({ witnessRandom with eventRoll := witnessRandom.eventRoll / 8 } :
      StepRandom).eventRoll > witnessSim.balance_config.event_chance_per_week := by
    show ¬ ((1 : ℚ) / 8 > (0.25 : ℚ))
    norm_num
  have h := empty_roster_event_tick witnessSim
    { witnessRandom with eventRoll := witnessRandom.eventRoll / 8 } rfl hroll
  exact ⟨rfl, hroll, h.1, h.2.2⟩

/-! ## Balance formulas -/

/-- C6: `calculate_game_score` is exactly the trend/reputation-scaled
average quality plus the jitter draw, clamped to `[0, 100]`, and therefore
always lies in `[0, 100]`. -/
theorem game_score_formula_and_bound (project : GameProject)
    (market_trend : MarketTrend) (studio : GameStudio) (config : BalanceConfig)
    (j : ℚ) (hdev : 0 ≤ config.random_score_deviation)
    (hj₁ : -config.random_score_deviation ≤ j)
    (hj₂ : j ≤ config.random_score_deviation) :
    calculate_game_score project market_trend studio config j =
      max 0 (min 100
        ((project.quality_code + project.quality_design + project.quality_art +
            project.quality_sound) / 4 *
          (if project.genre ∈ market_trend.trending_genres then
            1 + config.trend_genre_bonus else 1) *
          (if project.platform ∈ market_trend.popular_platforms then
            1 + config.trend_platform_bonus else 1) *
          (1 + (studio.reputation : ℚ) * 0.02) + j)) ∧
    0 ≤ calculate_game_score project market_trend studio config j ∧
    calculate_game_score project market_trend studio config j ≤ 100 := by
  have hform : calculate_game_score project market_trend studio config j =
      max 0 (min 100
        ((project.quality_code + project.quality_design + project.quality_art +
            project.quality_sound) / 4 *
          (if project.genre ∈ market_trend.trending_genres then
            1 + config.trend_genre_bonus else 1) *
          (if project.platform ∈ market_trend.popular_platforms then
            1 + config.trend_platform_bonus else 1) *
          (1 + (studio.reputation : ℚ) * 0.02) + j)) := by
    unfold calculate_game_score
    norm_num
  refine ⟨hform, ?_, ?_⟩
  · rw [hform]; exact le_max_left 0 _
  · rw [hform]
    exact max_le (by norm_num) (min_le_left 100 _)

theorem game_score_formula_and_bound_witness :
    (0 : ℚ) ≤ get_default_balance_config.random_score_deviation ∧
    -get_default_balance_config.random_score_deviation ≤ (2 : ℚ) ∧
    (2 : ℚ) ≤ get_default_balance_config.random_score_deviation ∧
    (0 ≤ calculate_game_score defaultProject ⟨[], []⟩ ⟨"S", 0, 0, [], [], []⟩
        get_default_balance_config 2 ∧
      calculate_game_score defaultProject ⟨[], []⟩ ⟨"S", 0, 0, [], [], []⟩
        get_default_balance_config 2 ≤ 100) := by
  have h1 : (0 : ℚ) ≤ get_default_balance_config.random_score_deviation := by
    norm_num [get_default_balance_config]
  have h2 : -get_default_balance_config.random_score_deviation ≤ (2 : ℚ) := by
    norm_num [get_default_balance_config]
  have h3 : (2 : ℚ) ≤ get_default_balance_config.random_score_deviation := by
    norm_num [get_default_balance_config]
  have h := game_score_formula_and_bound defaultProject ⟨[], []⟩
    ⟨"S", 0, 0, [], [], []⟩ get_default_balance_config 2 h1 h2 h3
  exact ⟨h1, h2, h3, h.2.1, h.2.2⟩

theorem pyTrunc_nonneg {x : ℝ} (hx : 0 ≤ x) : 0 ≤ pyTrunc x := by
  unfold pyTrunc
  rw [if_pos hx]
  exact Int.floor_nonneg.mpr hx

theorem pyTrunc_mono {x y : ℝ} (hx : 0 ≤ x) (hxy : x ≤ y) :
    pyTrunc x ≤ pyTrunc y := by
  unfold pyTrunc
  rw [if_pos hx, if_pos (hx.trans hxy)]
  exact Int.floor_le_floor hxy

/-- C7: with non-negative price, market size and income multiplier and a
variance draw in `[0.9, 1.1]`, `calculate_sales` is non-negative for every
score, and (variance held fixed) monotonically non-decreasing in score. -/
theorem sales_nonneg_and_monotone (base_price market_size : Int)
    (config : BalanceConfig) (v : ℝ)
    (hbp : 0 ≤ base_price) (hms : 0 ≤ market_size)
    (hmult : 0 ≤ config.base_project_income_multiplier)
    (hv₁ : (0.9 : ℝ) ≤ v) (hv₂ : v ≤ 1.1) :
    (∀ score : ℝ, 0 ≤ calculate_sales score base_price market_size config v) ∧
    (∀ s₁ s₂ : ℝ, s₁ ≤ s₂ →
      calculate_sales s₁ base_price market_size config v ≤
        calculate_sales s₂ base_price market_size config v) := by
  have hv0 : (0 : ℝ) ≤ v := by linarith
  have hpot : ∀ score : ℝ,
      0 ≤ (market_size : ℝ) * max 0.05 ((max 0.0 score / 50) ^ (1.4 : ℝ)) *
        (config.base_project_income_multiplier : ℝ) * v := by
    intro score
    have hd : (0 : ℝ) ≤ max 0.05 ((max 0.0 score / 50) ^ (1.4 : ℝ)) :=
      le_trans (by norm_num) (le_max_left _ _)
    have hmsR : (0 : ℝ) ≤ (market_size : ℝ) := by exact_mod_cast hms
    have hmuR : (0 : ℝ) ≤ (config.base_project_income_multiplier : ℝ) := by
      exact_mod_cast hmult
    exact mul_nonneg (mul_nonneg (mul_nonneg hmsR hd) hmuR) hv0
  have hmono : ∀ s₁ s₂ : ℝ, s₁ ≤ s₂ →
      (market_size : ℝ) * max 0.05 ((max 0.0 s₁ / 50) ^ (1.4 : ℝ)) *
          (config.base_project_income_multiplier : ℝ) * v ≤
        (market_size : ℝ) * max 0.05 ((max 0.0 s₂ / 50) ^ (1.4 : ℝ)) *
          (config.base_project_income_multiplier : ℝ) * v := by
    intro s₁ s₂ h
    have hn₁ : (0 : ℝ) ≤ max 0.0 s₁ / 50 := by positivity
    have hnle : max 0.0 s₁ / 50 ≤ max 0.0 s₂ / 50 := by
      have : max 0.0 s₁ ≤ max 0.0 s₂ := max_le_max le_rfl h
      linarith
    have hrpow : (max 0.0 s₁ / 50) ^ (1.4 : ℝ) ≤ (max 0.0 s₂ / 50) ^ (1.4 : ℝ) :=
      Real.rpow_le_rpow hn₁ hnle (by norm_num)
    have hdem : max 0.05 ((max 0.0 s₁ / 50) ^ (1.4 : ℝ)) ≤
        max 0.05 ((max 0.0 s₂ / 50) ^ (1.4 : ℝ)) := max_le_max le_rfl hrpow
    have hmsR : (0 : ℝ) ≤ (market_size : ℝ) := by exact_mod_cast hms
    have hmuR : (0 : ℝ) ≤ (config.base_project_income_multiplier : ℝ) := by
      exact_mod_cast hmult
    have h1 := mul_le_mul_of_nonneg_left hdem hmsR
    have h2 := mul_le_mul_of_nonneg_right h1 hmuR
    exact mul_le_mul_of_nonneg_right h2 hv0
  constructor
  · intro score
    show 0 ≤ pyTrunc _ * base_price
    exact mul_nonneg (pyTrunc_nonneg (hpot score)) hbp
  · intro s₁ s₂ h
    show pyTrunc _ * base_price ≤ pyTrunc _ * base_price
    have := pyTrunc_mono (hpot s₁) (hmono s₁ s₂ h)
    exact mul_le_mul_of_nonneg_right this hbp

theorem sales_nonneg_and_monotone_witness :
    (0 : Int) ≤ 30 ∧ (0 : Int) ≤ 50000 ∧
    (0 : ℚ) ≤ get_default_balance_config.base_project_income_multiplier ∧
    (0.9 : ℝ) ≤ 1 ∧ (1 : ℝ) ≤ 1.1 ∧
    (0 ≤ calculate_sales 70 30 50000 get_default_balance_config 1 ∧
      calculate_sales 50 30 50000 get_default_balance_config 1 ≤
        calculate_sales 70 30 50000 get_default_balance_config 1) := by
  have hm : (0 : ℚ) ≤ get_default_balance_config.base_project_income_multiplier := by
    norm_num [get_default_balance_config]
  have h := sales_nonneg_and_monotone 30 50000 get_default_balance_config 1
    (by norm_num) (by norm_num) hm (by norm_num) (by norm_num)
  exact ⟨by norm_num, by norm_num, hm, by norm_num, by norm_num,
    h.1 70, h.2 50 70 (by norm_num)⟩

/-! ## Arena access lemmas -/

theorem getE_setE_of_ne (s : GameSimulation) (i j : Nat) (e : Employee)
    (h : i ≠ j) : getE (setE s i e) j = getE s j := by
  show (s.eheap.set i e).getD j defaultEmployee = s.eheap.getD j defaultEmployee
  rw [List.getD_eq_getElem?_getD, List.getElem?_set, if_neg h,
    List.getD_eq_getElem?_getD]

theorem getE_setE_self (s : GameSimulation) (i : Nat) (e : Employee)
    (h : i < s.eheap.length) : getE (setE s i e) i = e := by
  show (s.eheap.set i e).getD i defaultEmployee = e
  rw [List.getD_eq_getElem?_getD, List.getElem?_set, if_pos rfl, if_pos h]
  rfl

theorem getE_setE (s : GameSimulation) (i j : Nat) (e : Employee) :
    getE (setE s i e) j = getE s j ∨ getE (setE s i e) j = e := by
  by_cases hij : i = j
  · subst hij
    by_cases hlen : i < s.eheap.length
    · exact Or.inr (getE_setE_self s i e hlen)
    · refine Or.inl ?_
      show (s.eheap.set i e).getD i defaultEmployee = s.eheap.getD i defaultEmployee
      rw [List.getD_eq_getElem?_getD, List.getElem?_set, if_pos rfl, if_neg hlen,
        List.getD_eq_getElem?_getD, List.getElem?_eq_none (by omega)]
  · exact Or.inl (getE_setE_of_ne s i j e hij)

theorem getP_setP_of_ne (s : GameSimulation) (i j : Nat) (p : GameProject)
    (h : i ≠ j) : getP (setP s i p) j = getP s j := by
  show (s.pheap.set i p).getD j defaultProject = s.pheap.getD j defaultProject
  rw [List.getD_eq_getElem?_getD, List.getElem?_set, if_neg h,
    List.getD_eq_getElem?_getD]

theorem getP_setP_self (s : GameSimulation) (i : Nat) (p : GameProject)
    (h : i < s.pheap.length) : getP (setP s i p) i = p := by
  show (s.pheap.set i p).getD i defaultProject = p
  rw [List.getD_eq_getElem?_getD, List.getElem?_set, if_pos rfl, if_pos h]
  rfl

theorem getE_of_eheap_eq {s s' : GameSimulation} (h : s'.eheap = s.eheap)
    (i : Nat) : getE s' i = getE s i := by
  show s'.eheap.getD i defaultEmployee = s.eheap.getD i defaultEmployee
  rw [h]

theorem getP_of_pheap_eq {s s' : GameSimulation} (h : s'.pheap = s.pheap)
    (i : Nat) : getP s' i = getP s i := by
  show s'.pheap.getD i defaultProject = s.pheap.getD i defaultProject
  rw [h]

/-! ## Fatigue invariant (C8) -/


theorem work_on_task_fatigue_bounds (e : Employee) (inc : Int)
    (hinc : 0 ≤ inc) (h0 : 0 ≤ e.fatigue) (h1 : e.fatigue ≤ 100) :
    0 ≤ ((e.work_on_task inc).1).fatigue ∧
      ((e.work_on_task inc).1).fatigue ≤ 100 := by
  show 0 ≤ min 100 (e.fatigue + inc) ∧ min 100 (e.fatigue + inc) ≤ 100
  omega

theorem rest_fatigue_bounds (e : Employee) (hours : Int)
    (hh : 0 ≤ hours) (h0 : 0 ≤ e.fatigue) (h1 : e.fatigue ≤ 100) :
    0 ≤ (e.rest hours).fatigue ∧ (e.rest hours).fatigue ≤ 100 := by
  show 0 ≤ max 0 (e.fatigue - hours) ∧ max 0 (e.fatigue - hours) ≤ 100
  omega

theorem FatOK_of_frames {s s' : GameSimulation}
    (hemp : s'.studio.employees = s.studio.employees) (hheap : s'.eheap = s.eheap)
    (h : FatOK s) : FatOK s' := by
  intro eid hm
  rw [hemp] at hm
  rw [getE_of_eheap_eq hheap]
  exact h eid hm

/-- Replacing one arena cell with a value that is in bounds whenever the
cell is on the roster preserves the invariant. -/
theorem FatOK_setE {s : GameSimulation} {i : Nat} {e' : Employee}
    (h : FatOK s)
    (hb : i ∈ s.studio.employees → 0 ≤ e'.fatigue ∧ e'.fatigue ≤ 100) :
    FatOK (setE s i e') := by
  intro eid hm
  have hm' : eid ∈ s.studio.employees := hm
  by_cases hij : i = eid
  · subst hij
    rcases getE_setE s i i e' with hcase | hcase <;> rw [hcase]
    · exact h i hm'
    · exact hb hm'
  · rw [getE_setE_of_ne s i eid e' hij]
    exact h eid hm'

theorem FatOK_setP {s : GameSimulation} {i : Nat} {p : GameProject}
    (h : FatOK s) : FatOK (setP s i p) :=
  FatOK_of_frames rfl rfl h

theorem FatOK_apply_employee_work {s : GameSimulation} {pid eid : Nat}
    {t : MarketTrend} {inc : Int} (hinc : 0 ≤ inc) (h : FatOK s) :
    FatOK (apply_employee_work s pid eid t inc) := by
  unfold apply_employee_work
  refine FatOK_setP (FatOK_setE h ?_)
  intro hm
  obtain ⟨h0, h1⟩ := h eid hm
  exact work_on_task_fatigue_bounds (getE s eid) inc hinc h0 h1

theorem FatOK_advance_week {s : GameSimulation} {pid : Nat} {t : MarketTrend}
    {inc : Int} (hinc : 0 ≤ inc) (h : FatOK s) :
    FatOK (advance_week s pid t inc) := by
  unfold advance_week
  by_cases hs : (getP s pid).status = "in_dev"
  · rw [if_pos hs]
    exact foldl_invariant _ FatOK
      (fun s' a h' => FatOK_apply_employee_work hinc h') _ s h
  · rw [if_neg hs]; exact h


theorem FatInv_advance_projects_loop {c : BalanceConfig} {s : GameSimulation}
    (hf : 0 ≤ c.fatigue_per_week) (h : FatInv c s) :
    FatInv c (advance_projects_loop s) := by
  unfold advance_projects_loop
  refine foldl_invariant _ (FatInv c) (fun s' a h' => ?_) _ s h
  by_cases hs : (getP s' a).status = "in_dev"
  · rw [if_pos hs]
    obtain ⟨hc, hok⟩ := h'
    constructor
    · rw [(advance_week_frame s' a s'.market_trend s'.balance_config.fatigue_per_week).2.2.2.2]
      exact hc
    · exact FatOK_advance_week (by rw [hc]; exact hf) hok
  · rw [if_neg hs]; exact h'

theorem FatInv_recover_idle_employees {c : BalanceConfig} {s : GameSimulation}
    (hr : 0 ≤ c.rest_recovery_per_week) (h : FatInv c s) :
    FatInv c (recover_idle_employees s) := by
  unfold recover_idle_employees
  refine foldl_invariant _ (FatInv c) (fun s' a h' => ?_) _ s h
  by_cases hm : getE s' a ∈
      (s.studio.projects.flatMap fun pid => (getP s pid).assigned_employees).map (getE s')
  · rw [if_pos hm]; exact h'
  · rw [if_neg hm]
    obtain ⟨hc, hok⟩ := h'
    refine ⟨hc, FatOK_setE hok ?_⟩
    intro hmem
    obtain ⟨h0, h1⟩ := hok a hmem
    exact rest_fatigue_bounds (getE s' a) s'.balance_config.rest_recovery_per_week
      (by rw [hc]; exact hr) h0 h1

theorem FatOK_apply_market_trends {s : GameSimulation} (h : FatOK s) :
    FatOK (apply_market_trends s) := by
  have hfr := apply_market_trends_frame s
  exact FatOK_of_frames (by rw [hfr.1]) hfr.2.2.2.2.2 h

theorem FatOK_process_random_events {s : GameSimulation} {r : StepRandom}
    (h : FatOK s) : FatOK (process_random_events s r) := by
  unfold process_random_events
  by_cases h1 : r.eventRoll > s.balance_config.event_chance_per_week
  · rw [if_pos h1]; exact h
  · rw [if_neg h1]
    by_cases h2 : r.eventPick < 0.4 ∧ s.studio.employees ≠ []
    · rw [if_pos h2]
      have hsick : FatOK (setE s
          (s.studio.employees.getD (r.sickIdx % s.studio.employees.length) 0)
          { getE s (s.studio.employees.getD (r.sickIdx % s.studio.employees.length) 0) with
            fatigue := min 100
              ((getE s (s.studio.employees.getD
                (r.sickIdx % s.studio.employees.length) 0)).fatigue + 20) }) := by
        refine FatOK_setE h ?_
        intro hmem
        obtain ⟨h0, h1'⟩ := h _ hmem
        constructor
        · show (0 : Int) ≤ min 100 _
          omega
        · show min 100 _ ≤ (100 : Int)
          omega
      exact FatOK_of_frames rfl rfl hsick
    · rw [if_neg h2]
      by_cases h3 : r.eventPick < 0.7
      · rw [if_pos h3]; exact FatOK_of_frames rfl rfl h
      · rw [if_neg h3]; exact FatOK_of_frames rfl rfl h

theorem FatOK_check_releases {s : GameSimulation} {r : StepRandom}
    (h : FatOK s) : FatOK (check_releases s r) := by
  have hfr := check_releases_frame s r
  exact FatOK_of_frames hfr.2.1 hfr.2.2.2.2.2.2 h

theorem FatInv_run_step {c : BalanceConfig} {s : GameSimulation} {r : StepRandom}
    (hf : 0 ≤ c.fatigue_per_week) (hr : 0 ≤ c.rest_recovery_per_week)
    (h : FatInv c s) : FatInv c (run_step s r) := by
  unfold run_step
  obtain ⟨hc, hok⟩ := h
  have h1 : FatInv c (pay_salaries s) := by
    refine ⟨(pay_salaries_frame s).2.2.2.2.2.2.2.2.1.trans hc, ?_⟩
    exact FatOK_of_frames (pay_salaries_frame s).2.2.1
      (pay_salaries_frame s).2.2.2.2.2.2.2.2.2.1 hok
  have h2 : FatInv c (advance_projects (pay_salaries s)) := by
    unfold advance_projects
    exact FatInv_recover_idle_employees hr (FatInv_advance_projects_loop hf h1)
  have h3 : FatInv c (apply_market_trends (advance_projects (pay_salaries s))) := by
    obtain ⟨hc2, hok2⟩ := h2
    exact ⟨(apply_market_trends_frame _).2.2.2.2.1.trans hc2, FatOK_apply_market_trends hok2⟩
  have h4 : FatInv c (process_random_events
      (apply_market_trends (advance_projects (pay_salaries s))) r) := by
    obtain ⟨hc3, hok3⟩ := h3
    exact ⟨(process_random_events_frame _ r).2.2.2.2.2.2.2.2.1.trans hc3,
      FatOK_process_random_events hok3⟩
  have h5 : FatInv c (check_releases (process_random_events
      (apply_market_trends (advance_projects (pay_salaries s))) r) r) := by
    obtain ⟨hc4, hok4⟩ := h4
    exact ⟨(check_releases_frame _ r).2.2.2.2.2.1.trans hc4, FatOK_check_releases hok4⟩
  obtain ⟨hc5, hok5⟩ := h5
  refine ⟨(advance_calendar_frame _).2.2.1.trans hc5, ?_⟩
  exact FatOK_of_frames (by rw [(advance_calendar_frame _).1])
    (advance_calendar_frame _).2.2.2.1 hok5

/-- C8: if every roster employee starts with fatigue in `[0, 100]` and the
configured weekly fatigue increment and rest recovery are non-negative,
then after any number of `run_step` calls under any draws every roster
employee's fatigue is still in `[0, 100]`; moreover each constituent
operation (`work_on_task` with non-negative increase, `rest` with
non-negative hours, the sickness event's `min 100 (fatigue + 20)`)
preserves the bounds. -/
theorem fatigue_invariant (s : GameSimulation) (rs : Nat → StepRandom)
    (h0 : ∀ eid ∈ s.studio.employees,
      0 ≤ (getE s eid).fatigue ∧ (getE s eid).fatigue ≤ 100)
    (hf : 0 ≤ s.balance_config.fatigue_per_week)
    (hr : 0 ≤ s.balance_config.rest_recovery_per_week) :
    (∀ n, ∀ eid ∈ (runSteps s rs n).studio.employees,
      0 ≤ (getE (runSteps s rs n) eid).fatigue ∧
        (getE (runSteps s rs n) eid).fatigue ≤ 100) ∧
    (∀ (e : Employee) (inc : Int), 0 ≤ inc → 0 ≤ e.fatigue → e.fatigue ≤ 100 →
      0 ≤ ((e.work_on_task inc).1).fatigue ∧
        ((e.work_on_task inc).1).fatigue ≤ 100) ∧
    (∀ (e : Employee) (hours : Int), 0 ≤ hours → 0 ≤ e.fatigue → e.fatigue ≤ 100 →
      0 ≤ (e.rest hours).fatigue ∧ (e.rest hours).fatigue ≤ 100) ∧
    (∀ (e : Employee), 0 ≤ e.fatigue → e.fatigue ≤ 100 →
      0 ≤ min 100 (e.fatigue + 20) ∧ min 100 (e.fatigue + 20) ≤ 100) := by
  refine ⟨?_, work_on_task_fatigue_bounds, rest_fatigue_bounds, fun e ha hb => by omega⟩
  have main : ∀ n, FatInv s.balance_config (runSteps s rs n) := by
    intro n
    induction n with
    | zero => exact ⟨rfl, h0⟩
    | succ n ih => exact FatInv_run_step hf hr ih
  exact fun n => (main n).2


theorem fatigue_invariant_witness :
    (∀ eid ∈ fatigueWitnessSim.studio.employees,
      0 ≤ (getE fatigueWitnessSim eid).fatigue ∧
        (getE fatigueWitnessSim eid).fatigue ≤ 100) ∧
    0 ≤ fatigueWitnessSim.balance_config.fatigue_per_week ∧
    0 ≤ fatigueWitnessSim.balance_config.rest_recovery_per_week ∧
    (∀ n, ∀ eid ∈ (runSteps fatigueWitnessSim (fun _ => witnessRandom) n).studio.employees,
      0 ≤ (getE (runSteps fatigueWitnessSim (fun _ => witnessRandom) n) eid).fatigue ∧
        (getE (runSteps fatigueWitnessSim (fun _ => witnessRandom) n) eid).fatigue ≤ 100) := by
  have hb : ∀ eid ∈ fatigueWitnessSim.studio.employees,
      0 ≤ (getE fatigueWitnessSim eid).fatigue ∧
        (getE fatigueWitnessSim eid).fatigue ≤ 100 := by
    intro eid hm
    have heid : eid = 0 := by simpa [fatigueWitnessSim] using hm
    subst heid
    refine ⟨?_, ?_⟩ <;>
      norm_num [getE, fatigueWitnessSim, List.getD_cons_zero]
  have hf : (0 : Int) ≤ fatigueWitnessSim.balance_config.fatigue_per_week := by
    norm_num [fatigueWitnessSim, get_default_balance_config]
  have hr : (0 : Int) ≤ fatigueWitnessSim.balance_config.rest_recovery_per_week := by
    norm_num [fatigueWitnessSim, get_default_balance_config]
  exact ⟨hb, hf, hr,
    (fatigue_invariant fatigueWitnessSim (fun _ => witnessRandom) hb hf hr).1⟩

/-! ## Idle-employee recovery (C4) -/

/-- C4 counterexample: in `c4Sim` the only employee is assigned to no
in-development project (its only project is cancelled), yet
`_advance_projects` does not lower its fatigue at all: the `assigned`
list is built from every project in `studio.projects` regardless of
status, so the employee is treated as busy.  `max 0 (10 - 5) = 5`, but
the fatigue stays `10`. -/
theorem idle_recovery_counterexample :
    (getP c4Sim 0).status ≠ "in_dev" ∧
    (getE c4Sim 0).fatigue = 10 ∧
    c4Sim.balance_config.rest_recovery_per_week = 5 ∧
    (getE (advance_projects c4Sim) 0).fatigue = 10 ∧
    ((10 : Int) ≠ max 0 (10 - 5)) := by
  refine ⟨?_, ?_, ?_, ?_, ?_⟩
  · simp [c4Sim, getP, List.getD_cons_zero]
  · simp [c4Sim, getE, List.getD_cons_zero]
  · simp [c4Sim, get_default_balance_config]
  · show (getE (recover_idle_employees (advance_projects_loop c4Sim)) 0).fatigue = 10
    have hloop : advance_projects_loop c4Sim = c4Sim := by
      simp [advance_projects_loop, c4Sim, getP, List.getD_cons_zero]
    rw [hloop]
    simp [recover_idle_employees, c4Sim, getP, getE, List.getD_cons_zero,
      List.flatMap]
  · omega

theorem getP_setP_cases (s : GameSimulation) (i : Nat) (p : GameProject)
    (j : Nat) :
    getP (setP s i p) j = getP s j ∨ (j = i ∧ getP (setP s i p) j = p) := by
  by_cases hij : i = j
  · subst hij
    by_cases hlen : i < s.pheap.length
    · exact Or.inr ⟨rfl, getP_setP_self s i p hlen⟩
    · refine Or.inl ?_
      show (s.pheap.set i p).getD i defaultProject = s.pheap.getD i defaultProject
      rw [List.getD_eq_getElem?_getD, List.getElem?_set, if_pos rfl, if_neg hlen,
        List.getD_eq_getElem?_getD, List.getElem?_eq_none (by omega)]
  · exact Or.inl (getP_setP_of_ne s i j p hij)

theorem apply_proj_fields (s : GameSimulation) (pid eid : Nat)
    (t : MarketTrend) (inc : Int) (q : Nat) :
    (getP (apply_employee_work s pid eid t inc) q).status = (getP s q).status ∧
    (getP (apply_employee_work s pid eid t inc) q).assigned_employees =
      (getP s q).assigned_employees := by
  unfold apply_employee_work
  have hph : (setE s eid ((getE s eid).work_on_task inc).1).pheap = s.pheap := rfl
  rcases getP_setP_cases (setE s eid ((getE s eid).work_on_task inc).1) pid _ q with
    h | ⟨hq, h⟩
  · rw [h, getP_of_pheap_eq hph]
    exact ⟨rfl, rfl⟩
  · subst hq
    rw [h, getP_of_pheap_eq hph]
    exact ⟨rfl, rfl⟩

theorem advance_week_proj_fields (s : GameSimulation) (pid : Nat)
    (t : MarketTrend) (inc : Int) (q : Nat) :
    (getP (advance_week s pid t inc) q).status = (getP s q).status ∧
    (getP (advance_week s pid t inc) q).assigned_employees =
      (getP s q).assigned_employees := by
  unfold advance_week
  by_cases hs : (getP s pid).status = "in_dev"
  · rw [if_pos hs]
    refine foldl_invariant _
      (fun s' => (getP s' q).status = (getP s q).status ∧
        (getP s' q).assigned_employees = (getP s q).assigned_employees)
      (fun s' a h' => ?_) _ s ⟨rfl, rfl⟩
    obtain ⟨h1, h2⟩ := apply_proj_fields s' pid a t inc q
    exact ⟨h1.trans h'.1, h2.trans h'.2⟩
  · rw [if_neg hs]; exact ⟨rfl, rfl⟩

theorem loop_proj_fields (s : GameSimulation) (q : Nat) :
    (getP (advance_projects_loop s) q).status = (getP s q).status ∧
    (getP (advance_projects_loop s) q).assigned_employees =
      (getP s q).assigned_employees := by
  unfold advance_projects_loop
  refine foldl_invariant _
    (fun s' => (getP s' q).status = (getP s q).status ∧
      (getP s' q).assigned_employees = (getP s q).assigned_employees)
    (fun s' a h' => ?_) _ s ⟨rfl, rfl⟩
  by_cases hs : (getP s' a).status = "in_dev"
  · rw [if_pos hs]
    obtain ⟨h1, h2⟩ :=
      advance_week_proj_fields s' a s'.market_trend s'.balance_config.fatigue_per_week q
    exact ⟨h1.trans h'.1, h2.trans h'.2⟩
  · rw [if_neg hs]; exact h'

theorem apply_cell_ne (s : GameSimulation) (pid eid : Nat) (t : MarketTrend)
    (inc : Int) (j : Nat) (h : j ≠ eid) :
    getE (apply_employee_work s pid eid t inc) j = getE s j := by
  unfold apply_employee_work
  have hph : ∀ p, (setP (setE s eid ((getE s eid).work_on_task inc).1) pid p).eheap =
      (setE s eid ((getE s eid).work_on_task inc).1).eheap := fun _ => rfl
  rw [getE_of_eheap_eq (hph _), getE_setE_of_ne _ _ _ _ (fun he => h he.symm)]

theorem advance_week_untouched (s : GameSimulation) (pid : Nat)
    (t : MarketTrend) (inc : Int) (j : Nat)
    (h : j ∉ (getP s pid).assigned_employees) :
    getE (advance_week s pid t inc) j = getE s j := by
  unfold advance_week
  by_cases hs : (getP s pid).status = "in_dev"
  · rw [if_pos hs]
    have : ∀ (l : List Nat) (s' : GameSimulation), (∀ x ∈ l, x ≠ j) →
        getE (l.foldl (fun s'' eid => apply_employee_work s'' pid eid t inc) s') j =
          getE s' j := by
      intro l
      induction l with
      | nil => intro s' _; rfl
      | cons a u ih =>
        intro s' hl
        rw [List.foldl_cons, ih _ (fun x hx => hl x (List.mem_cons_of_mem a hx)),
          apply_cell_ne s' pid a t inc j (fun hj => hl a (List.mem_cons_self a u) hj.symm)]
    exact this _ s (fun x hx hxj => h (hxj ▸ hx))
  · rw [if_neg hs]

theorem loop_untouched (s : GameSimulation) (j : Nat)
    (h : j ∉ assignedIds s) :
    getE (advance_projects_loop s) j = getE s j := by
  unfold advance_projects_loop
  have key : ∀ (l : List Nat) (s' : GameSimulation),
      (∀ q ∈ l, q ∈ s.studio.projects) →
      (∀ q, (getP s' q).assigned_employees = (getP s q).assigned_employees) →
      getE s' j = getE s j →
      getE (l.foldl (fun s'' pid =>
        if (getP s'' pid).status = "in_dev" then
          advance_week s'' pid s''.market_trend s''.balance_config.fatigue_per_week
        else s'') s') j = getE s j := by
    intro l
    induction l with
    | nil => intro s' _ _ hj; exact hj
    | cons a u ih =>
      intro s' hmem hasg hj
      rw [List.foldl_cons]
      by_cases hs : (getP s' a).status = "in_dev"
      · rw [if_pos hs]
        have hja : j ∉ (getP s' a).assigned_employees := by
          rw [hasg a]
          intro hc
          exact h (List.mem_flatMap.mpr ⟨a, hmem a (List.mem_cons_self a u), hc⟩)
        refine ih _ (fun q hq => hmem q (List.mem_cons_of_mem a hq)) ?_ ?_
        · intro q
          exact (advance_week_proj_fields s' a _ _ q).2.trans (hasg q)
        · rw [advance_week_untouched s' a _ _ j hja, hj]
      · rw [if_neg hs]
        exact ih _ (fun q hq => hmem q (List.mem_cons_of_mem a hq)) hasg hj
  exact key _ s (fun q hq => hq) (fun q => rfl) rfl

theorem setE_eheap_length (s : GameSimulation) (i : Nat) (e : Employee) :
    (setE s i e).eheap.length = s.eheap.length := by
  show (s.eheap.set i e).length = s.eheap.length
  simp

theorem loop_eheap_length (s : GameSimulation) :
    (advance_projects_loop s).eheap.length = s.eheap.length := by
  unfold advance_projects_loop
  refine foldl_proj_eq _ (fun x => x.eheap.length) (fun s' a => ?_) _ s
  by_cases hs : (getP s' a).status = "in_dev"
  · rw [if_pos hs]
    unfold advance_week
    by_cases hs2 : (getP s' a).status = "in_dev"
    · rw [if_pos hs2]
      refine foldl_proj_eq _ (fun x => x.eheap.length) (fun s'' b => ?_) _ s'
      show (apply_employee_work s'' a b _ _).eheap.length = s''.eheap.length
      unfold apply_employee_work
      exact setE_eheap_length s'' b _
    · rw [if_neg hs2]
  · rw [if_neg hs]

/-- Behaviour of the `_recover_idle_employees` loop on a roster member
that is referenced by no project and whose value collides with no
assigned employee's value. -/
theorem recover_cell (m : GameSimulation) (eid : Nat)
    (hmem : eid ∈ m.studio.employees) (hnodup : m.studio.employees.Nodup)
    (hrange : eid < m.eheap.length)
    (hguard : getE m eid ∉ (assignedIds m).map (getE m)) :
    getE (recover_idle_employees m) eid =
      (getE m eid).rest m.balance_config.rest_recovery_per_week := by
  have hother : ∀ (l : List Nat) (s' : GameSimulation), eid ∉ l →
      getE (l.foldl (fun s'' e =>
        if getE s'' e ∈ (assignedIds m).map (getE s'') then s''
        else setE s'' e ((getE s'' e).rest s''.balance_config.rest_recovery_per_week))
        s') eid = getE s' eid := by
    intro l
    induction l with
    | nil => intro s' _; rfl
    | cons a u ih =>
      intro s' hl
      rw [List.foldl_cons]
      by_cases hg : getE s' a ∈ (assignedIds m).map (getE s')
      · rw [if_pos hg]
        exact ih _ (fun hc => hl (List.mem_cons_of_mem a hc))
      · rw [if_neg hg]
        rw [ih _ (fun hc => hl (List.mem_cons_of_mem a hc)),
          getE_setE_of_ne _ _ _ _ (fun he => hl (by rw [← he]; exact List.mem_cons_self a u))]
  have key : ∀ (l : List Nat) (s' : GameSimulation),
      eid ∈ l → l.Nodup →
      getE s' eid = getE m eid →
      (∀ x ∈ assignedIds m, getE s' x = getE m x) →
      s'.balance_config = m.balance_config →
      eid < s'.eheap.length →
      getE (l.foldl (fun s'' e =>
        if getE s'' e ∈ (assignedIds m).map (getE s'') then s''
        else setE s'' e ((getE s'' e).rest s''.balance_config.rest_recovery_per_week))
        s') eid = (getE m eid).rest m.balance_config.rest_recovery_per_week := by
    intro l
    induction l with
    | nil => intro s' h; exact absurd h (List.not_mem_nil eid)
    | cons a u ih =>
      intro s' hin hnd hev hav hcf hlen
      rw [List.foldl_cons]
      by_cases hae : a = eid
      · subst hae
        have hmap : (assignedIds m).map (getE s') = (assignedIds m).map (getE m) :=
          List.map_congr_left hav
        have hg : getE s' a ∉ (assignedIds m).map (getE s') := by
          rw [hev, hmap]; exact hguard
        rw [if_neg hg]
        have hnotin : a ∉ u := (List.nodup_cons.mp hnd).1
        rw [hother u _ hnotin, getE_setE_self _ _ _ hlen, hev, hcf]
      · have hin' : eid ∈ u := by
          rcases List.mem_cons.mp hin with h | h
          · exact absurd h.symm hae
          · exact h
        by_cases hg : getE s' a ∈ (assignedIds m).map (getE s')
        · rw [if_pos hg]
          exact ih _ hin' (List.nodup_cons.mp hnd).2 hev hav hcf hlen
        · rw [if_neg hg]
          have hanotasg : a ∉ assignedIds m := by
            intro hc
            exact hg (List.mem_map.mpr ⟨a, hc, rfl⟩)
          refine ih _ hin' (List.nodup_cons.mp hnd).2 ?_ ?_ ?_ ?_
          · rw [getE_setE_of_ne _ _ _ _ hae, hev]
          · intro x hx
            rw [getE_setE_of_ne _ _ _ _ (fun hax => hanotasg (by rw [hax]; exact hx)), hav x hx]
          · exact hcf
          · rw [setE_eheap_length]; exact hlen
  exact key m.studio.employees m hmem hnodup rfl (fun x _ => rfl) rfl hrange

/-- C4 (amended): an employee referenced by *no* project in
`studio.projects` (of any status) and not value-equal, after the work
loop, to any assigned employee of any such project, has fatigue lowered
by exactly `rest_recovery_per_week`, floored at 0, by
`_advance_projects`. -/
theorem idle_recovery_amended (s : GameSimulation) (eid : Nat)
    (hmem : eid ∈ s.studio.employees) (hnodup : s.studio.employees.Nodup)
    (hrange : eid < s.eheap.length)
    (hid : eid ∉ assignedIds s)
    (hval : getE (advance_projects_loop s) eid ∉
      (assignedIds (advance_projects_loop s)).map (getE (advance_projects_loop s))) :
    getE (advance_projects s) eid =
      (getE s eid).rest s.balance_config.rest_recovery_per_week := by
  unfold advance_projects
  set m := advance_projects_loop s with hm
  have hfr := advance_projects_loop_frame s
  have hmemm : eid ∈ m.studio.employees := by rw [hm, hfr.1]; exact hmem
  have hnodm : m.studio.employees.Nodup := by rw [hm, hfr.1]; exact hnodup
  have hranm : eid < m.eheap.length := by rw [hm, loop_eheap_length]; exact hrange
  have hcell : getE m eid = getE s eid := loop_untouched s eid hid
  have := recover_cell m eid hmemm hnodm hranm hval
  rw [this, hcell, hm, hfr.2.2.2.2]

/-- Witness for `idle_recovery_amended` on `c4WSim`. -/
theorem idle_recovery_amended_witness :
    (0 ∈ c4WSim.studio.employees ∧ c4WSim.studio.employees.Nodup ∧
      0 < c4WSim.eheap.length ∧ 0 ∉ assignedIds c4WSim) ∧
    getE (advance_projects c4WSim) 0 =
      (getE c4WSim 0).rest c4WSim.balance_config.rest_recovery_per_week := by
  have hloop : advance_projects_loop c4WSim = c4WSim := by
    simp [advance_projects_loop, advance_week, c4WSim, getP, List.getD_cons_zero]
  have hasg : assignedIds c4WSim = [] := by
    simp [assignedIds, c4WSim, getP, List.getD_cons_zero, List.flatMap]
  have h1 : (0 : Nat) ∈ c4WSim.studio.employees := by simp [c4WSim]
  have h2 : c4WSim.studio.employees.Nodup := by simp [c4WSim]
  have h3 : 0 < c4WSim.eheap.length := by simp [c4WSim]
  have h4 : 0 ∉ assignedIds c4WSim := by rw [hasg]; exact List.not_mem_nil 0
  have h5 : getE (advance_projects_loop c4WSim) 0 ∉
      (assignedIds (advance_projects_loop c4WSim)).map
        (getE (advance_projects_loop c4WSim)) := by
    rw [hloop, hasg]
    exact List.not_mem_nil _
  exact ⟨⟨h1, h2, h3, h4⟩, idle_recovery_amended c4WSim 0 h1 h2 h3 h4 h5⟩

/-! ## Progress preservation through the weekly pipeline -/

theorem sameSkills_refl (e : Employee) : sameSkills e e :=
  ⟨rfl, rfl, rfl, rfl⟩

theorem sameSkills_trans {e₁ e₂ e₃ : Employee} (h₁ : sameSkills e₁ e₂)
    (h₂ : sameSkills e₂ e₃) : sameSkills e₁ e₃ :=
  ⟨h₁.1.trans h₂.1, h₁.2.1.trans h₂.2.1, h₁.2.2.1.trans h₂.2.2.1,
   h₁.2.2.2.trans h₂.2.2.2⟩

theorem SkillsNN_of_sameSkills {e e' : Employee} (h : sameSkills e e')
    (hnn : SkillsNN e') : SkillsNN e := by
  obtain ⟨a, b, c, d⟩ := h
  obtain ⟨a', b', c', d'⟩ := hnn
  exact ⟨a ▸ a', b ▸ b', c ▸ c', d ▸ d'⟩

theorem getE_setE_cases (s : GameSimulation) (i : Nat) (e : Employee)
    (j : Nat) :
    getE (setE s i e) j = getE s j ∨ (j = i ∧ getE (setE s i e) j = e) := by
  by_cases hij : i = j
  · subst hij
    rcases getE_setE s i i e with h | h
    · exact Or.inl h
    · exact Or.inr ⟨rfl, h⟩
  · exact Or.inl (getE_setE_of_ne s i j e hij)

theorem apply_cell_sameSkills (s : GameSimulation) (pid eid : Nat)
    (t : MarketTrend) (inc : Int) (j : Nat) :
    sameSkills (getE (apply_employee_work s pid eid t inc) j) (getE s j) := by
  unfold apply_employee_work
  have hph : ∀ p, (setP (setE s eid ((getE s eid).work_on_task inc).1) pid p).eheap =
      (setE s eid ((getE s eid).work_on_task inc).1).eheap := fun _ => rfl
  rw [getE_of_eheap_eq (hph _)]
  rcases getE_setE_cases s eid ((getE s eid).work_on_task inc).1 j with h | ⟨hj, h⟩
  · rw [h]; exact sameSkills_refl _
  · subst hj
    rw [h]
    exact ⟨rfl, rfl, rfl, rfl⟩

theorem fatigue_factor_nonneg (e : Employee) :
    (0 : ℚ) ≤ max 0.5 (1 - (e.fatigue : ℚ) / 100) :=
  le_trans (by norm_num) (le_max_left _ _)

theorem genre_multiplier_pos (t : MarketTrend) (g : String) :
    (0 : ℚ) < t.get_genre_multiplier g := by
  unfold MarketTrend.get_genre_multiplier
  split <;> norm_num

theorem min100_add_ge (p g : ℚ) (hp : 100 ≤ p) (hg : 0 ≤ g) :
    100 ≤ min 100.0 (p + g) := by
  refine le_min (by norm_num) (by linarith)

/-- One unit of work by an employee with non-negative skills never lowers
a project's progress below 100. -/
theorem apply_progress_ge (s : GameSimulation) (pid eid : Nat)
    (t : MarketTrend) (inc : Int) (hsk : SkillsNN (getE s eid))
    (h100 : 100 ≤ (getP s pid).progress) :
    100 ≤ (getP (apply_employee_work s pid eid t inc) pid).progress := by
  obtain ⟨hc, hd, ha, hs⟩ := hsk
  unfold apply_employee_work
  have hph : (setE s eid ((getE s eid).work_on_task inc).1).pheap = s.pheap := rfl
  have hget : getP (setE s eid ((getE s eid).work_on_task inc).1) pid = getP s pid :=
    getP_of_pheap_eq hph pid
  rcases getP_setP_cases (setE s eid ((getE s eid).work_on_task inc).1) pid _ pid with
    h | ⟨-, h⟩
  · rw [h, hget]; exact h100
  · rw [h]
    show 100 ≤ min 100.0 _
    rw [hget]
    refine min100_add_ge _ _ h100 ?_
    have hfac : (0 : ℚ) ≤ max 0.5 (1 - ((getE s eid).fatigue : ℚ) / 100) :=
      fatigue_factor_nonneg (getE s eid)
    have h1 : (0 : ℚ) ≤ ((getE s eid).work_on_task inc).2.code :=
      mul_nonneg (by exact_mod_cast hc) hfac
    have h2 : (0 : ℚ) ≤ ((getE s eid).work_on_task inc).2.design :=
      mul_nonneg (by exact_mod_cast hd) hfac
    have h3 : (0 : ℚ) ≤ ((getE s eid).work_on_task inc).2.art :=
      mul_nonneg (by exact_mod_cast ha) hfac
    have h4 : (0 : ℚ) ≤ ((getE s eid).work_on_task inc).2.sound :=
      mul_nonneg (by exact_mod_cast hs) hfac
    have hden : (0 : ℚ) < ((max 1 (getP s pid).complexity : Int) : ℚ) := by
      have hone : (1 : Int) ≤ max 1 (getP s pid).complexity := le_max_left 1 _
      exact_mod_cast lt_of_lt_of_le Int.zero_lt_one hone
    refine mul_nonneg (mul_nonneg (div_nonneg ?_ hden.le) (by norm_num))
      (genre_multiplier_pos t _).le
    split_ifs <;> first
      | exact h1 | exact h2 | exact h3 | exact h4
      | nlinarith [h1, h2, h3, h4]

theorem advance_week_sameSkills (s : GameSimulation) (pid : Nat)
    (t : MarketTrend) (inc : Int) (j : Nat) :
    sameSkills (getE (advance_week s pid t inc) j) (getE s j) := by
  unfold advance_week
  by_cases hs : (getP s pid).status = "in_dev"
  · rw [if_pos hs]
    refine foldl_invariant _ (fun s' => sameSkills (getE s' j) (getE s j))
      (fun s' a h' => ?_) _ s (sameSkills_refl _)
    exact sameSkills_trans (apply_cell_sameSkills s' pid a t inc j) h'
  · rw [if_neg hs]; exact sameSkills_refl _

theorem advance_week_progress (s : GameSimulation) (pid : Nat)
    (t : MarketTrend) (inc : Int)
    (hsk : ∀ x ∈ (getP s pid).assigned_employees, SkillsNN (getE s x))
    (h100 : 100 ≤ (getP s pid).progress) :
    100 ≤ (getP (advance_week s pid t inc) pid).progress := by
  unfold advance_week
  by_cases hs : (getP s pid).status = "in_dev"
  · rw [if_pos hs]
    have key : ∀ (l : List Nat) (s' : GameSimulation),
        (∀ x ∈ l, SkillsNN (getE s x)) →
        (∀ j, sameSkills (getE s' j) (getE s j)) →
        100 ≤ (getP s' pid).progress →
        100 ≤ (getP (l.foldl
          (fun s'' eid => apply_employee_work s'' pid eid t inc) s') pid).progress := by
      intro l
      induction l with
      | nil => intro s' _ _ h; exact h
      | cons a u ih =>
        intro s' hl hss h
        rw [List.foldl_cons]
        refine ih _ (fun x hx => hl x (List.mem_cons_of_mem a hx)) ?_ ?_
        · intro j
          exact sameSkills_trans (apply_cell_sameSkills s' pid a t inc j) (hss j)
        · exact apply_progress_ge s' pid a t inc
            (SkillsNN_of_sameSkills (hss a) (hl a (List.mem_cons_self a u))) h
    exact key _ s hsk (fun j => sameSkills_refl _) h100
  · rw [if_neg hs]; exact h100

theorem advance_week_other_proj (s : GameSimulation) (pid : Nat)
    (t : MarketTrend) (inc : Int) (q : Nat) (hq : q ≠ pid) :
    getP (advance_week s pid t inc) q = getP s q := by
  unfold advance_week
  by_cases hs : (getP s pid).status = "in_dev"
  · rw [if_pos hs]
    refine foldl_proj_eq _ (fun x => getP x q) (fun s' a => ?_) _ s
    show getP (apply_employee_work s' pid a t inc) q = getP s' q
    unfold apply_employee_work
    have hph : (setE s' a ((getE s' a).work_on_task inc).1).pheap = s'.pheap := rfl
    rw [getP_setP_of_ne _ _ _ _ (fun hpq => hq hpq.symm), getP_of_pheap_eq hph]
  · rw [if_neg hs]

theorem loop_progress (s : GameSimulation) (pid : Nat)
    (hsk : ∀ x ∈ (getP s pid).assigned_employees, SkillsNN (getE s x))
    (h100 : 100 ≤ (getP s pid).progress) :
    100 ≤ (getP (advance_projects_loop s) pid).progress := by
  unfold advance_projects_loop
  have key : ∀ (l : List Nat) (s' : GameSimulation),
      (∀ j, sameSkills (getE s' j) (getE s j)) →
      (getP s' pid).assigned_employees = (getP s pid).assigned_employees →
      100 ≤ (getP s' pid).progress →
      100 ≤ (getP (l.foldl (fun s'' q =>
        if (getP s'' q).status = "in_dev" then
          advance_week s'' q s''.market_trend s''.balance_config.fatigue_per_week
        else s'') s') pid).progress := by
    intro l
    induction l with
    | nil => intro s' _ _ h; exact h
    | cons a u ih =>
      intro s' hss hasg h
      rw [List.foldl_cons]
      by_cases hst : (getP s' a).status = "in_dev"
      · rw [if_pos hst]
        refine ih _ ?_ ?_ ?_
        · intro j
          exact sameSkills_trans (advance_week_sameSkills s' a _ _ j) (hss j)
        · exact (advance_week_proj_fields s' a _ _ pid).2.trans hasg
        · by_cases hapid : a = pid
          · subst hapid
            refine advance_week_progress s' a _ _ ?_ h
            intro x hx
            rw [hasg] at hx
            exact SkillsNN_of_sameSkills (hss x) (hsk x hx)
          · rw [advance_week_other_proj s' a _ _ pid (fun hpq => hapid hpq.symm)]
            exact h
      · rw [if_neg hst]
        exact ih _ hss hasg h
  exact key _ s (fun j => sameSkills_refl _) rfl h100

theorem trends_proj_fields (s : GameSimulation) (q : Nat) :
    (getP (apply_market_trends s) q).status = (getP s q).status ∧
    (getP (apply_market_trends s) q).assigned_employees =
      (getP s q).assigned_employees := by
  unfold apply_market_trends
  refine foldl_invariant _
    (fun s' => (getP s' q).status = (getP s q).status ∧
      (getP s' q).assigned_employees = (getP s q).assigned_employees)
    (fun s' a h' => ?_) _ s ⟨rfl, rfl⟩
  by_cases hs : (getP s' a).status ≠ "in_dev"
  · rw [if_pos hs]; exact h'
  · rw [if_neg hs]
    show ((getP (setP s' a _) q).status = _) ∧ ((getP (setP s' a _) q).assigned_employees = _)
    rcases getP_setP_cases s' a _ q with h | ⟨hq, h⟩
    · rw [h]; exact h'
    · subst hq
      rw [h]
      exact ⟨h'.1, h'.2⟩

theorem trends_progress (s : GameSimulation) (pid : Nat)
    (hb : 0 ≤ s.balance_config.trend_genre_bonus)
    (h100 : 100 ≤ (getP s pid).progress) :
    100 ≤ (getP (apply_market_trends s) pid).progress := by
  unfold apply_market_trends
  refine foldl_invariant _
    (fun s' => s'.balance_config = s.balance_config ∧ 100 ≤ (getP s' pid).progress)
    (fun s' a h' => ?_) _ s ⟨rfl, h100⟩ |>.2
  by_cases hs : (getP s' a).status ≠ "in_dev"
  · rw [if_pos hs]; exact h'
  · rw [if_neg hs]
    obtain ⟨hcf, hpr⟩ := h'
    refine ⟨hcf, ?_⟩
    rcases getP_setP_cases s' a
      { getP s' a with progress := min 100.0 ((getP s' a).progress +
          (if (getP s' a).genre ∈ s'.market_trend.trending_genres then
            s'.balance_config.trend_genre_bonus else 0.0) * 2) } pid with h | ⟨hq, h⟩
    · rw [h]; exact hpr
    · subst hq
      rw [h]
      show 100 ≤ min 100.0 _
      refine min100_add_ge _ _ hpr ?_
      have : (0 : ℚ) ≤ (if (getP s' pid).genre ∈ s'.market_trend.trending_genres then
          s'.balance_config.trend_genre_bonus else 0.0) := by
        split
        · rw [hcf]; exact hb
        · norm_num
      linarith

/-! ## Release mechanics -/

theorem removeFirstP_subset (pred : α → Bool) :
    ∀ (l : List α) (x : α), x ∈ removeFirstP pred l → x ∈ l := by
  intro l
  induction l with
  | nil => intro x h; exact absurd h (List.not_mem_nil x)
  | cons a u ih =>
    intro x h
    unfold removeFirstP at h
    by_cases hp : pred a
    · rw [if_pos hp] at h
      exact List.mem_cons_of_mem a h
    · rw [if_neg hp] at h
      rcases List.mem_cons.mp h with h | h
      · exact h ▸ List.mem_cons_self a u
      · exact List.mem_cons_of_mem a (ih x h)

theorem removeFirstP_eq_erase (pred : Nat → Bool) (a : Nat) :
    ∀ (l : List Nat), pred a = true → (∀ x ∈ l, x ≠ a → pred x = false) →
    removeFirstP pred l = l.erase a := by
  intro l
  induction l with
  | nil => intro _ _; rfl
  | cons x u ih =>
    intro ha hother
    unfold removeFirstP
    by_cases hxa : x = a
    · subst hxa
      rw [if_pos ha, List.erase_cons_head]
    · rw [if_neg (by rw [hother x (List.mem_cons_self x u) hxa]; exact Bool.false_ne_true),
        List.erase_cons_tail (by simpa using hxa),
        ih ha (fun y hy => hother y (List.mem_cons_of_mem x hy))]

theorem projValue_status (s : GameSimulation) (q : Nat) :
    (projValue s q).status = (getP s q).status := rfl

/-- Exact effect of `release_game` on a well-formed state: the released
project is removed from `projects` (the value-equality removal hits
exactly it, because no other active project is already `released`),
appended to `finished_projects`, and its arena record gets status
`released`; revenue is credited to cash. -/
theorem release_game_exact (s : GameSimulation) (pid : Nat) (jit var : ℚ)
    (hIn : pid ∈ s.studio.projects) (hNd : s.studio.projects.Nodup)
    (hNoRel : ∀ q ∈ s.studio.projects, q ≠ pid → (getP s q).status ≠ "released")
    (hRange : pid < s.pheap.length) :
    (release_game s pid jit var).studio.projects = s.studio.projects.erase pid ∧
    (release_game s pid jit var).studio.finished_projects =
      s.studio.finished_projects ++ [pid] ∧
    getP (release_game s pid jit var) pid = { getP s pid with status := "released" } ∧
    (∀ q, q ≠ pid → getP (release_game s pid jit var) q = getP s q) ∧
    (release_game s pid jit var).studio.cash = s.studio.cash +
      calculate_sales ((calculate_game_score (getP s pid) s.market_trend s.studio
        s.balance_config jit : ℚ) : ℝ) 30 50000 s.balance_config (var : ℝ) ∧
    (release_game s pid jit var).pheap.length = s.pheap.length := by
  set s₂ := setP
    { s with studio := { s.studio with
        cash := s.studio.cash +
          calculate_sales ((calculate_game_score (getP s pid) s.market_trend s.studio
            s.balance_config jit : ℚ) : ℝ) 30 50000 s.balance_config (var : ℝ)
        reputation := s.studio.reputation +
          max 1 ⌊calculate_game_score (getP s pid) s.market_trend s.studio
            s.balance_config jit / 20⌋ } }
    pid { getP s pid with status := "released" } with hs₂
  have hdef : release_game s pid jit var =
      { s₂ with studio := { s₂.studio with
          projects :=
            if s₂.studio.projects.any (fun q => projValue s₂ q == projValue s₂ pid) then
              removeFirstP (fun q => projValue s₂ q == projValue s₂ pid)
                s₂.studio.projects
            else s₂.studio.projects
          finished_projects := s₂.studio.finished_projects ++ [pid] } } := rfl
  have hph₂ : s₂.pheap = s.pheap.set pid { getP s pid with status := "released" } := rfl
  have hpr₂ : s₂.studio.projects = s.studio.projects := rfl
  have hgp : getP s₂ pid = { getP s pid with status := "released" } := by
    rw [hs₂]
    exact getP_setP_self _ pid _ hRange
  have hgq : ∀ q, q ≠ pid → getP s₂ q = getP s q := by
    intro q hq
    rw [hs₂]
    exact getP_setP_of_ne _ _ _ _ (fun hpq => hq hpq.symm)
  have hpredpid : (fun q => projValue s₂ q == projValue s₂ pid) pid = true := by
    simp
  have hpredother : ∀ x ∈ s₂.studio.projects, x ≠ pid →
      (fun q => projValue s₂ q == projValue s₂ pid) x = false := by
    intro x hx hxp
    have hst : (projValue s₂ x).status ≠ (projValue s₂ pid).status := by
      rw [projValue_status, projValue_status, hgp, hgq x hxp]
      exact hNoRel x (hpr₂ ▸ hx) hxp
    simp only [beq_eq_false_iff_ne, ne_eq]
    intro hc
    exact hst (by rw [hc])
  have hany : s₂.studio.projects.any (fun q => projValue s₂ q == projValue s₂ pid) = true :=
    List.any_eq_true.mpr ⟨pid, hpr₂ ▸ hIn, hpredpid⟩
  have hremove : removeFirstP (fun q => projValue s₂ q == projValue s₂ pid)
      s₂.studio.projects = s.studio.projects.erase pid := by
    rw [hpr₂] at hpredother ⊢
    exact removeFirstP_eq_erase _ pid s.studio.projects hpredpid hpredother
  refine ⟨?_, ?_, ?_, ?_, ?_, ?_⟩
  · rw [hdef]
    show (if s₂.studio.projects.any (fun q => projValue s₂ q == projValue s₂ pid) then
        removeFirstP (fun q => projValue s₂ q == projValue s₂ pid) s₂.studio.projects
      else s₂.studio.projects) = s.studio.projects.erase pid
    rw [if_pos hany, hremove]
  · rw [hdef]; rfl
  · rw [hdef]
    show getP s₂ pid = _
    exact hgp
  · intro q hq
    rw [hdef]
    show getP s₂ q = _
    exact hgq q hq
  · rw [hdef]; rfl
  · rw [hdef]
    show s₂.pheap.length = s.pheap.length
    rw [hph₂]
    simp

theorem release_game_other (s : GameSimulation) (pid : Nat) (jit var : ℚ)
    (q : Nat) (hq : q ≠ pid) :
    getP (release_game s pid jit var) q = getP s q := by
  have h : (release_game s pid jit var).pheap =
      (setP s pid { getP s pid with status := "released" }).pheap := rfl
  rw [getP_of_pheap_eq h, getP_setP_of_ne _ _ _ _ (fun hpq => hq hpq.symm)]

theorem release_game_pheap_len (s : GameSimulation) (pid : Nat) (jit var : ℚ) :
    (release_game s pid jit var).pheap.length = s.pheap.length := by
  have h : (release_game s pid jit var).pheap =
      s.pheap.set pid { getP s pid with status := "released" } := rfl
  rw [h]
  simp

/-- Unconditional structure of `release_game`'s list updates. -/
theorem release_game_struct (s : GameSimulation) (pid : Nat) (jit var : ℚ) :
    ∃ pred : Nat → Bool,
      (release_game s pid jit var).studio.projects =
        (if s.studio.projects.any pred then
          removeFirstP pred s.studio.projects
        else s.studio.projects) ∧
      (release_game s pid jit var).studio.finished_projects =
        s.studio.finished_projects ++ [pid] := by
  refine ⟨fun q => projValue
    (setP { s with studio := { s.studio with
        cash := s.studio.cash +
          calculate_sales ((calculate_game_score (getP s pid) s.market_trend s.studio
            s.balance_config jit : ℚ) : ℝ) 30 50000 s.balance_config (var : ℝ)
        reputation := s.studio.reputation +
          max 1 ⌊calculate_game_score (getP s pid) s.market_trend s.studio
            s.balance_config jit / 20⌋ } }
      pid { getP s pid with status := "released" }) q == projValue
    (setP { s with studio := { s.studio with
        cash := s.studio.cash +
          calculate_sales ((calculate_game_score (getP s pid) s.market_trend s.studio
            s.balance_config jit : ℚ) : ℝ) 30 50000 s.balance_config (var : ℝ)
        reputation := s.studio.reputation +
          max 1 ⌊calculate_game_score (getP s pid) s.market_trend s.studio
            s.balance_config jit / 20⌋ } }
      pid { getP s pid with status := "released" }) pid, rfl, rfl⟩

theorem release_game_projects_subset (s : GameSimulation) (pid : Nat)
    (jit var : ℚ) :
    ∀ x ∈ (release_game s pid jit var).studio.projects, x ∈ s.studio.projects := by
  intro x hx
  obtain ⟨pred, hpr, -⟩ := release_game_struct s pid jit var
  rw [hpr] at hx
  by_cases hc : s.studio.projects.any pred = true
  · rw [if_pos hc] at hx
    exact removeFirstP_subset pred _ x hx
  · rw [if_neg hc] at hx
    exact hx

theorem release_game_employees (s : GameSimulation) (pid : Nat) (jit var : ℚ) :
    (release_game s pid jit var).studio.employees = s.studio.employees := rfl

/-! ## The `_check_releases` loop -/

theorem chk_frame_cell (r : StepRandom) :
    ∀ (l : List Nat) (k : Nat) (s : GameSimulation) (x : Nat), x ∉ l →
    getP (check_releases_aux r l k s) x = getP s x ∧
    ((check_releases_aux r l k s).studio.finished_projects.count x =
      s.studio.finished_projects.count x) ∧
    (x ∉ s.studio.projects → x ∉ (check_releases_aux r l k s).studio.projects) := by
  intro l
  induction l with
  | nil => intro k s x _; exact ⟨rfl, rfl, fun h => h⟩
  | cons pid rest ih =>
    intro k s x hx
    have hxpid : x ≠ pid := fun h => hx (h ▸ List.mem_cons_self pid rest)
    have hxrest : x ∉ rest := fun h => hx (List.mem_cons_of_mem pid h)
    unfold check_releases_aux
    by_cases hg : (getP s pid).status = "in_dev" ∧ (getP s pid).progress ≥ 100
    · rw [if_pos hg]
      obtain ⟨a1, a2, a3⟩ := ih (k + 1) (release_game s pid (r.jitter k) (r.variance k)) x hxrest
      refine ⟨a1.trans (release_game_other s pid _ _ x hxpid), ?_, ?_⟩
      · rw [a2]
        obtain ⟨-, -, hfin⟩ := release_game_struct s pid (r.jitter k) (r.variance k)
        rw [hfin, List.count_append]
        simp [hxpid]
      · intro hxs
        refine a3 ?_
        intro hc
        exact hxs (release_game_projects_subset s pid _ _ x hc)
    · rw [if_neg hg]
      exact ih k s x hxrest

theorem chk_projects_subset (r : StepRandom) :
    ∀ (l : List Nat) (k : Nat) (s : GameSimulation) (x : Nat),
    x ∈ (check_releases_aux r l k s).studio.projects → x ∈ s.studio.projects := by
  intro l
  induction l with
  | nil => intro k s x h; exact h
  | cons pid rest ih =>
    intro k s x h
    unfold check_releases_aux at h
    by_cases hg : (getP s pid).status = "in_dev" ∧ (getP s pid).progress ≥ 100
    · rw [if_pos hg] at h
      exact release_game_projects_subset s pid _ _ x (ih _ _ x h)
    · rw [if_neg hg] at h
      exact ih k s x h

theorem chk_finished_decomp (r : StepRandom) :
    ∀ (l : List Nat) (k : Nat) (s : GameSimulation),
    ∃ L, (check_releases_aux r l k s).studio.finished_projects =
        s.studio.finished_projects ++ L ∧ ∀ x ∈ L, x ∈ l := by
  intro l
  induction l with
  | nil => intro k s; exact ⟨[], (List.append_nil _).symm, fun x h => absurd h (List.not_mem_nil x)⟩
  | cons pid rest ih =>
    intro k s
    unfold check_releases_aux
    by_cases hg : (getP s pid).status = "in_dev" ∧ (getP s pid).progress ≥ 100
    · rw [if_pos hg]
      obtain ⟨L, hL, hmem⟩ := ih (k + 1) (release_game s pid (r.jitter k) (r.variance k))
      obtain ⟨-, -, hfin⟩ := release_game_struct s pid (r.jitter k) (r.variance k)
      refine ⟨pid :: L, ?_, ?_⟩
      · rw [hL, hfin, List.append_assoc]
        rfl
      · intro x hx
        rcases List.mem_cons.mp hx with h | h
        · exact h ▸ List.mem_cons_self pid rest
        · exact List.mem_cons_of_mem pid (hmem x h)
    · rw [if_neg hg]
      obtain ⟨L, hL, hmem⟩ := ih k s
      exact ⟨L, hL, fun x hx => List.mem_cons_of_mem pid (hmem x hx)⟩

theorem chk_status_flip (r : StepRandom) :
    ∀ (l : List Nat) (k : Nat) (s : GameSimulation) (x : Nat),
    (getP s x).status = "in_dev" →
    (getP (check_releases_aux r l k s) x).status = "released" →
    100 ≤ (getP s x).progress := by
  intro l
  induction l with
  | nil =>
    intro k s x hdev hrel
    rw [show check_releases_aux r [] k s = s from rfl] at hrel
    rw [hdev] at hrel
    exact absurd hrel (by decide)
  | cons pid rest ih =>
    intro k s x hdev hrel
    unfold check_releases_aux at hrel
    by_cases hg : (getP s pid).status = "in_dev" ∧ (getP s pid).progress ≥ 100
    · rw [if_pos hg] at hrel
      by_cases hxpid : x = pid
      · subst hxpid
        exact hg.2
      · have hcell : getP (release_game s pid (r.jitter k) (r.variance k)) x = getP s x :=
          release_game_other s pid _ _ x hxpid
        have h := ih (k + 1) (release_game s pid (r.jitter k) (r.variance k)) x
          (by rw [hcell]; exact hdev) hrel
        rwa [hcell] at h
    · rw [if_neg hg] at hrel
      exact ih k s x hdev hrel

/-- Main specification of the release loop: on a well-formed state a
qualifying project from the snapshot is removed from `projects`, marked
`released`, and appended to `finished_projects` exactly once. -/
theorem chk_main (r : StepRandom) :
    ∀ (l : List Nat) (k : Nat) (s : GameSimulation),
    l.Nodup → (∀ x ∈ l, x ∈ s.studio.projects) →
    s.studio.projects.Nodup →
    (∀ q ∈ s.studio.projects, q < s.pheap.length) →
    (∀ q ∈ s.studio.projects, (getP s q).status ≠ "released") →
    ∀ pid, pid ∈ l → (getP s pid).status = "in_dev" →
      100 ≤ (getP s pid).progress →
    (pid ∉ (check_releases_aux r l k s).studio.projects ∧
     (getP (check_releases_aux r l k s) pid).status = "released" ∧
     (check_releases_aux r l k s).studio.finished_projects.count pid =
       s.studio.finished_projects.count pid + 1) := by
  intro l
  induction l with
  | nil =>
    intro k s _ _ _ _ _ pid hpid
    exact absurd hpid (List.not_mem_nil pid)
  | cons pid₀ rest ih =>
    intro k s hndl hl hndp hrange hnorel pid hpid hdev hprog
    unfold check_releases_aux
    by_cases hpe : pid₀ = pid
    · subst hpe
      have hg : (getP s pid₀).status = "in_dev" ∧ (getP s pid₀).progress ≥ 100 :=
        ⟨hdev, hprog⟩
      rw [if_pos hg]
      have hIn : pid₀ ∈ s.studio.projects := hl pid₀ (List.mem_cons_self pid₀ rest)
      obtain ⟨hproj, hfin, hgp, hother, -, -⟩ :=
        release_game_exact s pid₀ (r.jitter k) (r.variance k) hIn hndp
          (fun q hq _ => hnorel q hq) (hrange pid₀ hIn)
      have hnotin : pid₀ ∉ rest := (List.nodup_cons.mp hndl).1
      obtain ⟨f1, f2, f3⟩ := chk_frame_cell r rest (k + 1)
        (release_game s pid₀ (r.jitter k) (r.variance k)) pid₀ hnotin
      refine ⟨?_, ?_, ?_⟩
      · refine f3 ?_
        rw [hproj]
        intro hc
        exact ((List.Nodup.mem_erase_iff hndp).mp hc).1 rfl
      · rw [f1, hgp]
      · rw [f2, hfin, List.count_append]
        simp
    · have hpid' : pid ∈ rest := by
        rcases List.mem_cons.mp hpid with h | h
        · exact absurd h.symm hpe
        · exact h
      by_cases hg : (getP s pid₀).status = "in_dev" ∧ (getP s pid₀).progress ≥ 100
      · rw [if_pos hg]
        have hIn : pid₀ ∈ s.studio.projects := hl pid₀ (List.mem_cons_self pid₀ rest)
        obtain ⟨hproj, hfin, hgp, hother, -, hlen⟩ :=
          release_game_exact s pid₀ (r.jitter k) (r.variance k) hIn hndp
            (fun q hq _ => hnorel q hq) (hrange pid₀ hIn)
        have hnotin : pid₀ ∉ rest := (List.nodup_cons.mp hndl).1
        have hstep := ih (k + 1) (release_game s pid₀ (r.jitter k) (r.variance k))
          (List.nodup_cons.mp hndl).2
          (by
            intro x hx
            rw [hproj, List.Nodup.mem_erase_iff hndp]
            exact ⟨fun hc => hnotin (hc ▸ hx), hl x (List.mem_cons_of_mem pid₀ hx)⟩)
          (by rw [hproj]; exact hndp.erase pid₀)
          (by
            intro q hq
            rw [hproj] at hq
            rw [hlen]
            exact hrange q (((List.Nodup.mem_erase_iff hndp).mp hq).2))
          (by
            intro q hq
            rw [hproj] at hq
            obtain ⟨hqne, hqin⟩ := (List.Nodup.mem_erase_iff hndp).mp hq
            rw [hother q hqne]
            exact hnorel q hqin)
          pid hpid'
          (by rw [hother pid (fun h => hpe h.symm)]; exact hdev)
          (by rw [hother pid (fun h => hpe h.symm)]; exact hprog)
        refine ⟨hstep.1, hstep.2.1, ?_⟩
        rw [hstep.2.2, hfin, List.count_append]
        simp [Ne.symm hpe]
      · rw [if_neg hg]
        exact ih k s (List.nodup_cons.mp hndl).2
          (fun x hx => hl x (List.mem_cons_of_mem pid₀ hx)) hndp hrange hnorel
          pid hpid' hdev hprog

/-! ## Transport through the stages that precede `_check_releases` -/

theorem apply_pheap_length (s : GameSimulation) (pid eid : Nat)
    (t : MarketTrend) (inc : Int) :
    (apply_employee_work s pid eid t inc).pheap.length = s.pheap.length := by
  show ((setE s eid ((getE s eid).work_on_task inc).1).pheap.set pid _).length =
    s.pheap.length
  simp [setE]

theorem loop_pheap_length (s : GameSimulation) :
    (advance_projects_loop s).pheap.length = s.pheap.length := by
  unfold advance_projects_loop
  refine foldl_proj_eq _ (fun x => x.pheap.length) (fun s' a => ?_) _ s
  by_cases hs : (getP s' a).status = "in_dev"
  · rw [if_pos hs]
    unfold advance_week
    by_cases hs2 : (getP s' a).status = "in_dev"
    · rw [if_pos hs2]
      refine foldl_proj_eq _ (fun x => x.pheap.length) (fun s'' b => ?_) _ s'
      exact apply_pheap_length s'' a b _ _
    · rw [if_neg hs2]
  · rw [if_neg hs]

theorem trends_pheap_length (s : GameSimulation) :
    (apply_market_trends s).pheap.length = s.pheap.length := by
  unfold apply_market_trends
  refine foldl_proj_eq _ (fun x => x.pheap.length) (fun s' a => ?_) _ s
  by_cases hs : (getP s' a).status ≠ "in_dev"
  · rw [if_pos hs]
  · rw [if_neg hs]
    show ((setP s' a _).pheap).length = s'.pheap.length
    simp [setP]

/-- The stages before `_check_releases` keep the studio's three lists, all
project statuses and assigned lists, the arena sizes and the config. -/
theorem mid_transport (s : GameSimulation) (r : StepRandom) :
    (process_random_events (apply_market_trends (advance_projects
      (pay_salaries s))) r).studio.projects = s.studio.projects ∧
    (process_random_events (apply_market_trends (advance_projects
      (pay_salaries s))) r).studio.finished_projects = s.studio.finished_projects ∧
    (process_random_events (apply_market_trends (advance_projects
      (pay_salaries s))) r).studio.employees = s.studio.employees ∧
    (∀ q, (getP (process_random_events (apply_market_trends (advance_projects
      (pay_salaries s))) r) q).status = (getP s q).status) ∧
    (process_random_events (apply_market_trends (advance_projects
      (pay_salaries s))) r).pheap.length = s.pheap.length ∧
    (process_random_events (apply_market_trends (advance_projects
      (pay_salaries s))) r).balance_config = s.balance_config := by
  set s₁ := pay_salaries s with h1
  set s₂ := advance_projects s₁ with h2
  set s₃ := apply_market_trends s₂ with h3
  have e1p : s₁.pheap = s.pheap := rfl
  have e1status : ∀ q, getP s₁ q = getP s q := getP_of_pheap_eq e1p
  have hadv := advance_projects_frame s₁
  have hrec := recover_idle_employees_frame (advance_projects_loop s₁)
  have e2status : ∀ q, (getP s₂ q).status = (getP s₁ q).status := by
    intro q
    have : getP s₂ q = getP (advance_projects_loop s₁) q := by
      rw [h2]
      unfold advance_projects
      exact getP_of_pheap_eq hrec.2.2.2.2.2 q
    rw [this, (loop_proj_fields s₁ q).1]
  have e2len : s₂.pheap.length = s₁.pheap.length := by
    rw [h2]
    unfold advance_projects
    rw [hrec.2.2.2.2.2, loop_pheap_length]
  have e3status : ∀ q, (getP s₃ q).status = (getP s₂ q).status :=
    fun q => (trends_proj_fields s₂ q).1
  have hev := process_random_events_frame s₃ r
  have e4status : ∀ q, (getP (process_random_events s₃ r) q).status =
      (getP s₃ q).status :=
    fun q => congrArg GameProject.status (getP_of_pheap_eq hev.2.2.2.2.2.2.2.2.2 q)
  have htr := apply_market_trends_frame s₂
  refine ⟨?_, ?_, ?_, ?_, ?_, ?_⟩
  · rw [hev.2.2.2.1, show s₃.studio = s₂.studio from htr.1, hadv.1]
    rfl
  · rw [hev.2.2.2.2.1, show s₃.studio = s₂.studio from htr.1, hadv.1]
    rfl
  · rw [hev.2.2.1, show s₃.studio = s₂.studio from htr.1, hadv.1]
    rfl
  · intro q
    rw [e4status q, e3status q, e2status q, congrArg GameProject.status (e1status q)]
  · rw [hev.2.2.2.2.2.2.2.2.2, trends_pheap_length, e2len, e1p]
  · rw [hev.2.2.2.2.2.2.2.2.1, htr.2.2.2.2.1, hadv.2.2.2.2, (pay_salaries_frame s).2.2.2.2.2.2.2.2.1]

/-- Under non-negative skills of its assigned employees and a non-negative
trend bonus, a project entering `run_step` with progress `≥ 100` still has
progress `≥ 100` when `_check_releases` runs. -/
theorem mid_progress (s : GameSimulation) (r : StepRandom) (pid : Nat)
    (hsk : ∀ x ∈ (getP s pid).assigned_employees, SkillsNN (getE s x))
    (hbonus : 0 ≤ s.balance_config.trend_genre_bonus)
    (h100 : 100 ≤ (getP s pid).progress) :
    100 ≤ (getP (process_random_events (apply_market_trends (advance_projects
      (pay_salaries s))) r) pid).progress := by
  set s₁ := pay_salaries s with h1
  have e1 : ∀ q, getP s₁ q = getP s q := getP_of_pheap_eq rfl
  have e1e : ∀ j, getE s₁ j = getE s j := getE_of_eheap_eq rfl
  have hsk₁ : ∀ x ∈ (getP s₁ pid).assigned_employees, SkillsNN (getE s₁ x) := by
    intro x hx
    rw [e1 pid] at hx
    rw [e1e x]
    exact hsk x hx
  have h100₁ : 100 ≤ (getP s₁ pid).progress := by rw [e1 pid]; exact h100
  have hloop := loop_progress s₁ pid hsk₁ h100₁
  have hrec := recover_idle_employees_frame (advance_projects_loop s₁)
  have h100₂ : 100 ≤ (getP (advance_projects s₁) pid).progress := by
    unfold advance_projects
    rw [congrArg GameProject.progress (getP_of_pheap_eq hrec.2.2.2.2.2 pid)]
    exact hloop
  have hcfg₂ : (advance_projects s₁).balance_config = s.balance_config := by
    rw [(advance_projects_frame s₁).2.2.2.2]
    exact (pay_salaries_frame s).2.2.2.2.2.2.2.2.1
  have h100₃ : 100 ≤ (getP (apply_market_trends (advance_projects s₁)) pid).progress :=
    trends_progress (advance_projects s₁) pid (by rw [hcfg₂]; exact hbonus) h100₂
  have hev := process_random_events_frame (apply_market_trends (advance_projects s₁)) r
  rw [congrArg GameProject.progress (getP_of_pheap_eq hev.2.2.2.2.2.2.2.2.2 pid)]
  exact h100₃

theorem run_step_projects_subset (s : GameSimulation) (r : StepRandom) :
    ∀ x ∈ (run_step s r).studio.projects, x ∈ s.studio.projects := by
  intro x hx
  obtain ⟨mp, -, -, -, -, -⟩ := mid_transport s r
  have hst : (run_step s r).studio =
      (check_releases (process_random_events (apply_market_trends
        (advance_projects (pay_salaries s))) r) r).studio :=
    (advance_calendar_frame _).1
  rw [hst] at hx
  have := chk_projects_subset r _ 0 _ x hx
  rw [mp] at this
  exact this

theorem run_step_finished_decomp (s : GameSimulation) (r : StepRandom) :
    ∃ L, (run_step s r).studio.finished_projects =
        s.studio.finished_projects ++ L ∧ ∀ x ∈ L, x ∈ s.studio.projects := by
  obtain ⟨mp, mf, -, -, -, -⟩ := mid_transport s r
  have hst : (run_step s r).studio =
      (check_releases (process_random_events (apply_market_trends
        (advance_projects (pay_salaries s))) r) r).studio :=
    (advance_calendar_frame _).1
  obtain ⟨L, hL, hmem⟩ := chk_finished_decomp r
    (process_random_events (apply_market_trends (advance_projects
      (pay_salaries s))) r).studio.projects 0
    (process_random_events (apply_market_trends (advance_projects
      (pay_salaries s))) r)
  refine ⟨L, ?_, ?_⟩
  · rw [hst]
    show (check_releases_aux r _ 0 _).studio.finished_projects = _
    rw [hL, mf]
  · intro x hxL
    have := hmem x hxL
    rw [mp] at this
    exact this

/-- C2 (amended): on a state whose active list has no duplicate references
and no already-released entry, with valid arena references, a project that
is `in_dev` at progress `≥ 100` when `run_step` is called — provided its
assigned employees have non-negative skills and the configured trend genre
bonus is non-negative — ends the call in `finished_projects` with status
`released`, is removed from `projects`, is appended exactly once, never
reappears in `projects` in any later call, and its `finished_projects`
count stays put; moreover the `in_dev → released` transition only ever
fires for a project whose progress is `≥ 100` when `_check_releases`
runs. -/
theorem release_one_way (s : GameSimulation) (r : StepRandom) (pid : Nat)
    (hIn : pid ∈ s.studio.projects)
    (hDev : (getP s pid).status = "in_dev")
    (hProg : 100 ≤ (getP s pid).progress)
    (hNd : s.studio.projects.Nodup)
    (hNoRel : ∀ q ∈ s.studio.projects, (getP s q).status ≠ "released")
    (hRange : ∀ q ∈ s.studio.projects, q < s.pheap.length)
    (hSk : ∀ x ∈ (getP s pid).assigned_employees, SkillsNN (getE s x))
    (hBonus : 0 ≤ s.balance_config.trend_genre_bonus) :
    (pid ∈ (run_step s r).studio.finished_projects ∧
     (getP (run_step s r) pid).status = "released" ∧
     pid ∉ (run_step s r).studio.projects ∧
     (run_step s r).studio.finished_projects.count pid =
       s.studio.finished_projects.count pid + 1) ∧
    (∀ (rs : Nat → StepRandom) (n : Nat),
      pid ∉ (runSteps (run_step s r) rs n).studio.projects ∧
      (runSteps (run_step s r) rs n).studio.finished_projects.count pid =
        s.studio.finished_projects.count pid + 1) ∧
    (∀ (s' : GameSimulation) (r' : StepRandom) (x : Nat),
      (getP s' x).status = "in_dev" →
      (getP (run_step s' r') x).status = "released" →
      100 ≤ (getP (process_random_events (apply_market_trends (advance_projects
        (pay_salaries s'))) r') x).progress) := by
  obtain ⟨mp, mf, me, mstat, mlen, mcfg⟩ := mid_transport s r
  have hmain := chk_main r
    (process_random_events (apply_market_trends (advance_projects
      (pay_salaries s))) r).studio.projects 0
    (process_random_events (apply_market_trends (advance_projects
      (pay_salaries s))) r)
    (by rw [mp]; exact hNd)
    (fun x hx => hx)
    (by rw [mp]; exact hNd)
    (by intro q hq; rw [mp] at hq; rw [mlen]; exact hRange q hq)
    (by intro q hq; rw [mp] at hq; rw [mstat q]; exact hNoRel q hq)
    pid (by rw [mp]; exact hIn)
    (by rw [mstat pid]; exact hDev)
    (mid_progress s r pid hSk hBonus hProg)
  have hst : (run_step s r).studio =
      (check_releases (process_random_events (apply_market_trends
        (advance_projects (pay_salaries s))) r) r).studio :=
    (advance_calendar_frame _).1
  have hph : (run_step s r).pheap =
      (check_releases (process_random_events (apply_market_trends
        (advance_projects (pay_salaries s))) r) r).pheap :=
    (advance_calendar_frame _).2.2.2.2
  have hcount : (run_step s r).studio.finished_projects.count pid =
      s.studio.finished_projects.count pid + 1 := by
    rw [hst]
    show (check_releases_aux r _ 0 _).studio.finished_projects.count pid = _
    rw [hmain.2.2, mf]
  have hout : pid ∉ (run_step s r).studio.projects := by
    rw [hst]
    exact hmain.1
  have hrel : (getP (run_step s r) pid).status = "released" := by
    rw [congrArg GameProject.status (getP_of_pheap_eq hph pid)]
    exact hmain.2.1
  have hmem : pid ∈ (run_step s r).studio.finished_projects := by
    have : 0 < (run_step s r).studio.finished_projects.count pid := by
      rw [hcount]; omega
    exact List.count_pos_iff.mp this
  refine ⟨⟨hmem, hrel, hout, hcount⟩, ?_, ?_⟩
  · intro rs n
    induction n with
    | zero => exact ⟨hout, hcount⟩
    | succ n ih =>
      obtain ⟨ihout, ihcount⟩ := ih
      constructor
      · intro hc
        exact ihout (run_step_projects_subset _ _ pid hc)
      · obtain ⟨L, hL, hLm⟩ := run_step_finished_decomp (runSteps (run_step s r) rs n) (rs n)
        show (run_step (runSteps (run_step s r) rs n) (rs n)).studio.finished_projects.count pid = _
        rw [hL, List.count_append, ihcount,
          List.count_eq_zero.mpr (fun hc => ihout (hLm pid hc))]
  · intro s' r' x hdev hrel'
    have hph' : (run_step s' r').pheap =
        (check_releases (process_random_events (apply_market_trends
          (advance_projects (pay_salaries s'))) r') r').pheap :=
      (advance_calendar_frame _).2.2.2.2
    rw [congrArg GameProject.status (getP_of_pheap_eq hph' x)] at hrel'
    obtain ⟨-, -, -, mstat', -, -⟩ := mid_transport s' r'
    exact chk_status_flip r' _ 0 _ x (by rw [mstat' x]; exact hdev) hrel'

/-- C2 counterexample: in `negSkillSim` the sole project enters `run_step`
as `in_dev` with progress exactly 100, yet its negatively-skilled assigned
employee drags progress below 100 during `_advance_projects`, so
`_check_releases` never fires: the project is not released in that call,
contradicting the claim as stated. -/
theorem release_counterexample :
    (getP negSkillSim 0).status = "in_dev" ∧
    (getP negSkillSim 0).progress = 100 ∧
    0 ∈ negSkillSim.studio.projects ∧
    0 ∉ (run_step negSkillSim negSkillRandom).studio.finished_projects := by
  refine ⟨rfl, rfl, by simp [negSkillSim], ?_⟩
  show 0 ∉ (advance_calendar (check_releases (process_random_events (apply_market_trends
    (advance_projects (pay_salaries negSkillSim))) negSkillRandom) negSkillRandom)).studio.finished_projects
  have h1 : advance_projects (pay_salaries negSkillSim) =
      { studio := ⟨"S", 950, 0, [0], [0], []⟩
        current_week := 1
        current_year := 1
        market_trend := ⟨[], []⟩
        balance_config := { base_project_income_multiplier := 0
                            random_score_deviation := 0
                            event_chance_per_week := 0 }
        eheap := [⟨"a", "programmer", -10, 0, 0, 0, 50, 10⟩]
        pheap := [⟨"G", "RPG", "PC", 1, 0, -1, 0, 0, 0, "in_dev", [0]⟩] } := by
    norm_num [advance_projects, advance_projects_loop, advance_week,
      apply_employee_work, Employee.work_on_task, recover_idle_employees,
      Employee.rest, pay_salaries, negSkillSim, getP, getE, setP, setE,
      List.getD_cons_zero, assignedIds, MarketTrend.get_genre_multiplier,
      min_def]
  rw [h1]
  norm_num [apply_market_trends, process_random_events, check_releases,
    check_releases_aux, advance_calendar, apply_event_effect, getP, getE,
    setP, setE, List.getD_cons_zero, min_def, negSkillRandom]

/-- Witness for `release_one_way` on `releaseWSim`. -/
theorem release_one_way_witness :
    (0 ∈ releaseWSim.studio.projects ∧
      (getP releaseWSim 0).status = "in_dev" ∧
      100 ≤ (getP releaseWSim 0).progress) ∧
    (0 ∈ (run_step releaseWSim negSkillRandom).studio.finished_projects ∧
      (getP (run_step releaseWSim negSkillRandom) 0).status = "released" ∧
      0 ∉ (run_step releaseWSim negSkillRandom).studio.projects ∧
      (run_step releaseWSim negSkillRandom).studio.finished_projects.count 0 =
        releaseWSim.studio.finished_projects.count 0 + 1) := by
  have hIn : (0 : Nat) ∈ releaseWSim.studio.projects := by simp [releaseWSim]
  have hDev : (getP releaseWSim 0).status = "in_dev" := rfl
  have hProg : (100 : ℚ) ≤ (getP releaseWSim 0).progress := by
    norm_num [releaseWSim, getP, List.getD_cons_zero]
  have hNd : releaseWSim.studio.projects.Nodup := by simp [releaseWSim]
  have hNoRel : ∀ q ∈ releaseWSim.studio.projects,
      (getP releaseWSim q).status ≠ "released" := by
    intro q hq
    have : q = 0 := by simpa [releaseWSim] using hq
    subst this
    simp [releaseWSim, getP, List.getD_cons_zero]
  have hRange : ∀ q ∈ releaseWSim.studio.projects, q < releaseWSim.pheap.length := by
    intro q hq
    have : q = 0 := by simpa [releaseWSim] using hq
    subst this
    simp [releaseWSim]
  have hSk : ∀ x ∈ (getP releaseWSim 0).assigned_employees,
      SkillsNN (getE releaseWSim x) := by
    intro x hx
    simp [releaseWSim, getP, List.getD_cons_zero] at hx
  have hBonus : (0 : ℚ) ≤ releaseWSim.balance_config.trend_genre_bonus := by
    norm_num [releaseWSim, get_default_balance_config]
  have h := release_one_way releaseWSim negSkillRandom 0 hIn hDev hProg hNd
    hNoRel hRange hSk hBonus
  exact ⟨⟨hIn, hDev, hProg⟩, h.1⟩

/-! ## The zero-randomness release scenario (C3) -/

theorem calculate_sales_zero_mult (score : ℝ) (bp ms : Int)
    (c : BalanceConfig) (v : ℝ)
    (h : c.base_project_income_multiplier = 0) :
    calculate_sales score bp ms c v = 0 := by
  unfold calculate_sales
  rw [h]
  push_cast
  rw [mul_zero, zero_mul]
  show pyTrunc 0 * bp = 0
  unfold pyTrunc
  rw [if_pos le_rfl, Int.floor_zero, zero_mul]

/-- C3 (amended): the zero-randomness scenario with a strictly positive
event roll, non-negative skills on the project's assigned employees, a
non-negative trend genre bonus, and a valid project reference: one
`run_step` lowers cash by exactly the salary 50, releases the project
(revenue is 0 because the income multiplier is 0), and sets the week
to 2. -/
theorem zero_randomness_scenario (s : GameSimulation) (r : StepRandom)
    (eid pid : Nat)
    (hros : s.studio.employees = [eid])
    (hsal : (getE s eid).salary = 50)
    (hprj : s.studio.projects = [pid])
    (hdev : (getP s pid).status = "in_dev")
    (hprog : (getP s pid).progress = 100)
    (hchance : s.balance_config.event_chance_per_week = 0)
    (hmult : s.balance_config.base_project_income_multiplier = 0)
    (hdev0 : s.balance_config.random_score_deviation = 0)
    (hweek : s.current_week = 1)
    (hrange : pid < s.pheap.length)
    (hSk : ∀ x ∈ (getP s pid).assigned_employees, SkillsNN (getE s x))
    (hBonus : 0 ≤ s.balance_config.trend_genre_bonus)
    (hroll : 0 < r.eventRoll) :
    (run_step s r).studio.cash = s.studio.cash - 50 ∧
    (run_step s r).studio.projects = [] ∧
    (run_step s r).studio.finished_projects =
      s.studio.finished_projects ++ [pid] ∧
    (getP (run_step s r) pid).status = "released" ∧
    (run_step s r).current_week = 2 := by
  obtain ⟨mp, mf, me, mstat, mlen, mcfg⟩ := mid_transport s r
  -- cash after salaries
  have hcash₁ : (pay_salaries s).studio.cash = s.studio.cash - 50 := by
    unfold pay_salaries
    rw [hros]
    show s.studio.cash -
      ((0 : Int) + (if (getE s eid).salary = 0 then _ else (getE s eid).salary)) = _
    rw [hsal]
    norm_num
  -- cash untouched up to the release check
  have hcashm : (process_random_events (apply_market_trends (advance_projects
      (pay_salaries s))) r).studio.cash = s.studio.cash - 50 := by
    have hcfg3 : (apply_market_trends (advance_projects
        (pay_salaries s))).balance_config = s.balance_config := by
      rw [(apply_market_trends_frame _).2.2.2.2.1, (advance_projects_frame _).2.2.2.2,
        (pay_salaries_frame s).2.2.2.2.2.2.2.2.1]
    have hskip : r.eventRoll > (apply_market_trends (advance_projects
        (pay_salaries s))).balance_config.event_chance_per_week := by
      rw [hcfg3, hchance]
      exact hroll
    have hid : process_random_events (apply_market_trends (advance_projects
        (pay_salaries s))) r = apply_market_trends (advance_projects
        (pay_salaries s)) := by
      unfold process_random_events
      rw [if_pos hskip]
    rw [hid, congrArg GameStudio.cash (apply_market_trends_frame _).1,
      congrArg GameStudio.cash (advance_projects_frame _).1, hcash₁]
  -- the release check fires exactly once
  have hmdev : (getP (process_random_events (apply_market_trends (advance_projects
      (pay_salaries s))) r) pid).status = "in_dev" := by
    rw [mstat pid]; exact hdev
  have hmprog : (100 : ℚ) ≤ (getP (process_random_events (apply_market_trends
      (advance_projects (pay_salaries s))) r) pid).progress :=
    mid_progress s r pid hSk hBonus (by rw [hprog])
  have hchk : check_releases (process_random_events (apply_market_trends
      (advance_projects (pay_salaries s))) r) r =
      release_game (process_random_events (apply_market_trends (advance_projects
        (pay_salaries s))) r) pid (r.jitter 0) (r.variance 0) := by
    unfold check_releases
    rw [mp, hprj]
    unfold check_releases_aux
    rw [if_pos ⟨hmdev, hmprog⟩]
    rfl
  obtain ⟨hproj, hfin, hgp, -, hcash, -⟩ := release_game_exact
    (process_random_events (apply_market_trends (advance_projects
      (pay_salaries s))) r) pid (r.jitter 0) (r.variance 0)
    (by rw [mp, hprj]; exact List.mem_cons_self pid [])
    (by rw [mp, hprj]; simp)
    (by
      intro q hq hqne
      rw [mp, hprj] at hq
      have : q = pid := by simpa using hq
      exact absurd this hqne)
    (by rw [mlen]; exact hrange)
  have hstud : (run_step s r).studio =
      (release_game (process_random_events (apply_market_trends (advance_projects
        (pay_salaries s))) r) pid (r.jitter 0) (r.variance 0)).studio := by
    show (advance_calendar _).studio = _
    rw [(advance_calendar_frame _).1, hchk]
  have hpheap : (run_step s r).pheap =
      (release_game (process_random_events (apply_market_trends (advance_projects
        (pay_salaries s))) r) pid (r.jitter 0) (r.variance 0)).pheap := by
    show (advance_calendar _).pheap = _
    rw [(advance_calendar_frame _).2.2.2.2, hchk]
  refine ⟨?_, ?_, ?_, ?_, ?_⟩
  · rw [congrArg GameStudio.cash hstud, hcash, hcashm,
      calculate_sales_zero_mult _ _ _ _ _ (by rw [mcfg]; exact hmult)]
    omega
  · rw [congrArg GameStudio.projects hstud, hproj, mp, hprj]
    simp
  · rw [congrArg GameStudio.finished_projects hstud, hfin, mf]
  · rw [congrArg GameProject.status (getP_of_pheap_eq hpheap pid), hgp]
  · obtain ⟨hw, -⟩ := run_step_calendar s r
    rw [hw, hweek]
    norm_num

/-- C3 counterexample: `negSkillSim` satisfies the scenario's premises
verbatim (one employee with salary 50, a single `in_dev` project at
progress 100, zero event chance / income multiplier / jitter), yet for the
draw sequence `negSkillRandom` the call does *not* move the project to
`finished_projects`: its negatively-skilled assigned employee pushes
progress below 100 first, so not every such simulation behaves as the
claim states. -/
theorem scenario_counterexample :
    negSkillSim.studio.employees = [0] ∧
    (getE negSkillSim 0).salary = 50 ∧
    negSkillSim.studio.projects = [0] ∧
    (getP negSkillSim 0).status = "in_dev" ∧
    (getP negSkillSim 0).progress = 100 ∧
    negSkillSim.balance_config.event_chance_per_week = 0 ∧
    negSkillSim.balance_config.base_project_income_multiplier = 0 ∧
    negSkillSim.balance_config.random_score_deviation = 0 ∧
    0 ∉ (run_step negSkillSim negSkillRandom).studio.finished_projects := by
  refine ⟨rfl, rfl, rfl, rfl, rfl, rfl, rfl, rfl, ?_⟩
  show 0 ∉ (advance_calendar (check_releases (process_random_events (apply_market_trends
    (advance_projects (pay_salaries negSkillSim))) negSkillRandom) negSkillRandom)).studio.finished_projects
  have h1 : advance_projects (pay_salaries negSkillSim) =
      { studio := ⟨"S", 950, 0, [0], [0], []⟩
        current_week := 1
        current_year := 1
        market_trend := ⟨[], []⟩
        balance_config := { base_project_income_multiplier := 0
                            random_score_deviation := 0
                            event_chance_per_week := 0 }
        eheap := [⟨"a", "programmer", -10, 0, 0, 0, 50, 10⟩]
        pheap := [⟨"G", "RPG", "PC", 1, 0, -1, 0, 0, 0, "in_dev", [0]⟩] } := by
    norm_num [advance_projects, advance_projects_loop, advance_week,
      apply_employee_work, Employee.work_on_task, recover_idle_employees,
      Employee.rest, pay_salaries, negSkillSim, getP, getE, setP, setE,
      List.getD_cons_zero, assignedIds, MarketTrend.get_genre_multiplier,
      min_def]
  rw [h1]
  norm_num [apply_market_trends, process_random_events, check_releases,
    check_releases_aux, advance_calendar, apply_event_effect, getP, getE,
    setP, setE, List.getD_cons_zero, min_def, negSkillRandom]

/-- Witness for `zero_randomness_scenario` on `c3WSim`. -/
theorem zero_randomness_scenario_witness :
    (c3WSim.studio.employees = [0] ∧ (getE c3WSim 0).salary = 50 ∧
     c3WSim.studio.projects = [0] ∧ (getP c3WSim 0).status = "in_dev" ∧
     (getP c3WSim 0).progress = 100 ∧
     c3WSim.balance_config.event_chance_per_week = 0 ∧
     c3WSim.balance_config.base_project_income_multiplier = 0 ∧
     c3WSim.balance_config.random_score_deviation = 0 ∧
     c3WSim.current_week = 1) ∧
    ((run_step c3WSim negSkillRandom).studio.cash = c3WSim.studio.cash - 50 ∧
     (run_step c3WSim negSkillRandom).studio.projects = [] ∧
     (run_step c3WSim negSkillRandom).studio.finished_projects =
       c3WSim.studio.finished_projects ++ [0] ∧
     (getP (run_step c3WSim negSkillRandom) 0).status = "released" ∧
     (run_step c3WSim negSkillRandom).current_week = 2) := by
  have hprog : (getP c3WSim 0).progress = 100 := rfl
  have hrange : (0 : Nat) < c3WSim.pheap.length := by simp [c3WSim]
  have hSk : ∀ x ∈ (getP c3WSim 0).assigned_employees, SkillsNN (getE c3WSim x) := by
    intro x hx
    have hx0 : x = 0 := by simpa [c3WSim, getP, List.getD_cons_zero] using hx
    subst hx0
    refine ⟨?_, ?_, ?_, ?_⟩ <;> norm_num [c3WSim, getE, List.getD_cons_zero]
  have hBonus : (0 : ℚ) ≤ c3WSim.balance_config.trend_genre_bonus := by
    norm_num [c3WSim]
  have hroll : (0 : ℚ) < negSkillRandom.eventRoll := by norm_num [negSkillRandom]
  have h := zero_randomness_scenario c3WSim negSkillRandom 0 0 rfl rfl rfl rfl
    hprog rfl rfl rfl rfl hrange hSk hBonus hroll
  exact ⟨⟨rfl, rfl, rfl, rfl, hprog, rfl, rfl, rfl, rfl⟩, h⟩

/-! ## Permissive restore (C5) -/

theorem wfInt_ok {v : Option PyVal} (h : wfInt v = true) (d : Int) :
    ∃ n, pyToInt v d = .ok n := by
  match v with
  | none => exact ⟨d, rfl⟩
  | some (.pyInt n) => exact ⟨n, rfl⟩
  | some (.pyFloat q) => exact ⟨ratTrunc q, rfl⟩
  | some (.pyStr str) =>
    simp [wfInt, Option.isSome_iff_exists] at h
    obtain ⟨n, hn⟩ := h
    exact ⟨n, by simp [pyToInt, hn]⟩
  | some .pyNone => simp [wfInt] at h

theorem wfFloat_ok {v : Option PyVal} (h : wfFloat v = true) (d : ℚ) :
    ∃ q, pyToFloat v d = .ok q := by
  match v with
  | none => exact ⟨d, rfl⟩
  | some (.pyInt n) => exact ⟨(n : ℚ), rfl⟩
  | some (.pyFloat q) => exact ⟨q, rfl⟩
  | some (.pyStr str) => simp [wfFloat] at h
  | some .pyNone => simp [wfFloat] at h

theorem employee_from_dict_ok {d : EmployeeDoc} (h : wfEmployeeDoc d = true) :
    ∃ e, employee_from_dict d = .ok e := by
  simp [wfEmployeeDoc, Bool.and_eq_true] at h
  obtain ⟨⟨⟨⟨⟨h1, h2⟩, h3⟩, h4⟩, h5⟩, h6⟩ := h
  obtain ⟨n1, e1⟩ := wfInt_ok h1 0
  obtain ⟨n2, e2⟩ := wfInt_ok h2 0
  obtain ⟨n3, e3⟩ := wfInt_ok h3 0
  obtain ⟨n4, e4⟩ := wfInt_ok h4 0
  obtain ⟨n5, e5⟩ := wfInt_ok h5 0
  obtain ⟨n6, e6⟩ := wfInt_ok h6 0
  refine ⟨⟨pyToStr d.name "", pyToStr d.role "programmer", n1, n2, n3, n4, n5, n6⟩, ?_⟩
  simp only [employee_from_dict, e1, e2, e3, e4, e5, e6]
  rfl

theorem project_from_dict_ok {d : ProjectDoc} (nE : Nat)
    (h : wfProjectDoc d = true) :
    ∃ p, project_from_dict d nE = .ok p := by
  simp [wfProjectDoc, Bool.and_eq_true] at h
  obtain ⟨⟨⟨⟨⟨h1, h2⟩, h3⟩, h4⟩, h5⟩, h6⟩ := h
  obtain ⟨n1, e1⟩ := wfInt_ok h1 0
  obtain ⟨q1, f1⟩ := wfFloat_ok h2 0.0
  obtain ⟨q2, f2⟩ := wfFloat_ok h3 0.0
  obtain ⟨q3, f3⟩ := wfFloat_ok h4 0.0
  obtain ⟨q4, f4⟩ := wfFloat_ok h5 0.0
  obtain ⟨q5, f5⟩ := wfFloat_ok h6 0.0
  refine ⟨⟨pyToStr d.title "Unnamed Project", pyToStr d.genre "",
    pyToStr d.platform "", n1, q1, q2, q3, q4, q5, pyToStr d.status "in_dev",
    (d.assigned_employees.getD []).filterMap (fun v =>
      match v with
      | .pyInt n => if 0 ≤ n ∧ n < (nE : Int) then some n.toNat else none
      | _ => none)⟩, ?_⟩
  simp only [project_from_dict, e1, f1, f2, f3, f4, f5]
  rfl

theorem mapM_ok {α β : Type} (f : α → Except String β) :
    ∀ (l : List α), (∀ x ∈ l, ∃ y, f x = .ok y) →
    ∃ ys, l.mapM f = .ok ys := by
  intro l
  induction l with
  | nil => exact fun _ => ⟨[], rfl⟩
  | cons a u ih =>
    intro h
    obtain ⟨y, hy⟩ := h a (List.mem_cons_self a u)
    obtain ⟨ys, hys⟩ := ih (fun x hx => h x (List.mem_cons_of_mem a hx))
    refine ⟨y :: ys, ?_⟩
    rw [List.mapM_cons, hy, hys]
    rfl

theorem except_bind_ok {α β : Type} (a : α) (f : α → Except String β) :
    (Except.ok a : Except String α) >>= f = f a := rfl

/-- C5 (amended): `from_dict` recovers *missing* fields with defaults and
returns a simulation without raising, provided every present numeric field
holds a value the Python coercion accepts; in particular a document whose
studio lacks a `cash` entry (or lacks the studio altogether) restores with
cash 0.  A present non-coercible value (e.g. `None` in a numeric slot)
makes `int(...)`/`float(...)` raise instead. -/
theorem from_dict_permissive (d : SimDoc) (h : wfSimDoc d = true) :
    ∃ sim, from_dict d = .ok sim ∧
      ((d.studio.getD emptyStudioDoc).cash = none → sim.studio.cash = 0) := by
  simp only [wfSimDoc, wfStudioDoc, Bool.and_eq_true] at h
  obtain ⟨⟨hw', hy'⟩, ⟨⟨⟨⟨hcash', hrep'⟩, hemps'⟩, hprjs'⟩, hfins'⟩⟩ := h
  obtain ⟨es, hes⟩ := mapM_ok employee_from_dict
    ((d.studio.getD emptyStudioDoc).employees.getD [])
    (fun x hx => employee_from_dict_ok (by
      have := List.all_eq_true.mp hemps' x hx
      exact this))
  obtain ⟨c, hc⟩ := wfInt_ok hcash' 0
  obtain ⟨rep, hrep⟩ := wfInt_ok hrep' 0
  obtain ⟨ps, hps⟩ := mapM_ok (fun pd => project_from_dict pd es.length)
    ((d.studio.getD emptyStudioDoc).projects.getD [])
    (fun x hx => project_from_dict_ok es.length (by
      exact List.all_eq_true.mp hprjs' x hx))
  obtain ⟨fs, hfs⟩ := mapM_ok (fun pd => project_from_dict pd es.length)
    ((d.studio.getD emptyStudioDoc).finished_projects.getD [])
    (fun x hx => project_from_dict_ok es.length (by
      exact List.all_eq_true.mp hfins' x hx))
  obtain ⟨w, hw⟩ := wfInt_ok hw' 1
  obtain ⟨y, hy⟩ := wfInt_ok hy' 1
  refine ⟨GameSimulation.mk
    ⟨pyToStr (d.studio.getD emptyStudioDoc).name "Unnamed Studio", c, rep,
     List.range es.length, List.range ps.length,
     (List.range fs.length).map (fun i => i + ps.length)⟩
    w y
    ⟨(d.market_trend.getD ⟨none, none⟩).trending_genres.getD [],
     (d.market_trend.getD ⟨none, none⟩).popular_platforms.getD []⟩
    (d.balance_config.getD get_default_balance_config)
    es (ps ++ fs), ?_, ?_⟩
  · simp only [from_dict, hes, hc, hrep, hps, hfs, hw, hy, except_bind_ok]
    rfl
  · intro hnone
    show c = 0
    rw [hnone] at hc
    exact (Except.ok.injEq _ _).mp hc.symm

/-- C5 counterexample: a document whose studio carries `cash: None` makes
`from_dict` raise (`int(None)` is a `TypeError` in Python, an `error`
value here) instead of recovering with a default — "malformed" fields are
not recovered, only missing ones are. -/
theorem permissive_restore_counterexample :
    from_dict c5BadDoc = .error "int() argument must not be None" := rfl

/-- Witness for `from_dict_permissive` on `c5WDoc`. -/
theorem from_dict_permissive_witness :
    wfSimDoc c5WDoc = true ∧
    (∃ sim, from_dict c5WDoc = .ok sim ∧
      ((c5WDoc.studio.getD emptyStudioDoc).cash = none → sim.studio.cash = 0)) :=
  ⟨rfl, from_dict_permissive c5WDoc rfl⟩

/-! ## C1: serialization round trip -/

theorem findIdx?_map_comp (f : α → β) (p : β → Bool) :
    ∀ l : List α, (l.map f).findIdx? p = l.findIdx? (fun a => p (f a)) := by
  intro l
  induction l with
  | nil => rfl
  | cons a u ih => simp [List.findIdx?_cons, ih]

theorem findIdx?_lt_length_aux (p : α → Bool) :
    ∀ (l : List α) (i j : Nat), l.findIdx? p i = some j → j < i + l.length := by
  intro l
  induction l with
  | nil => intro i j h; exact absurd h (by simp [List.findIdx?])
  | cons a u ih =>
    intro i j h
    rw [List.findIdx?_cons] at h
    by_cases hp : p a
    · rw [if_pos hp] at h
      have := Option.some.inj h
      simp only [List.length_cons]
      omega
    · rw [if_neg hp] at h
      have := ih (i + 1) j h
      simp only [List.length_cons]
      omega

theorem findIdx?_lt_length (p : α → Bool) (l : List α) (j : Nat)
    (h : l.findIdx? p = some j) : j < l.length := by
  have := findIdx?_lt_length_aux p l 0 j h
  omega

theorem range_map_getD (l : List α) (d : α) :
    (List.range l.length).map (fun i => l.getD i d) = l := by
  refine List.ext_get (by simp) ?_
  intro i h1 h2
  simp only [List.get_eq_getElem, List.getElem_map, List.getElem_range]
  rw [List.getD_eq_getElem l d (by simpa using h2)]

theorem employee_round_trip (e : Employee) :
    employee_from_dict (employee_to_dict e) = .ok e := rfl

theorem mapM_employee_round (l : List Employee) :
    (l.map employee_to_dict).mapM employee_from_dict = .ok l := by
  induction l with
  | nil => rfl
  | cons e u ih =>
    rw [List.map_cons, List.mapM_cons, employee_round_trip, ih]
    rfl

theorem optStr_beq (a b : String) :
    (some (PyVal.pyStr a) == some (PyVal.pyStr b)) = (a == b) := by
  by_cases h : a = b
  · subst h
    simp
  · rw [beq_eq_false_iff_ne.mpr h, beq_eq_false_iff_ne.mpr (fun hc => ?_)]
    have := Option.some.inj hc
    simp only [PyVal.pyStr.injEq] at this
    exact h this

theorem docs_findIdx (s : GameSimulation) (e : Employee) :
    ((rosterVals s).map employee_to_dict).findIdx? (fun d =>
      d.name == some (.pyStr e.name) && d.role == some (.pyStr e.role)) =
    firstMatchIdx s e := by
  rw [findIdx?_map_comp]
  unfold firstMatchIdx
  congr 1
  funext x
  show (some (PyVal.pyStr x.name) == some (.pyStr e.name) &&
    some (PyVal.pyStr x.role) == some (.pyStr e.role)) = _
  rw [optStr_beq, optStr_beq]

theorem filterMap_congr_mem {α β : Type} (f g : α → Option β) :
    ∀ (l : List α), (∀ x ∈ l, f x = g x) → l.filterMap f = l.filterMap g := by
  intro l
  induction l with
  | nil => intro _; rfl
  | cons a u ih =>
    intro h
    rw [List.filterMap_cons, List.filterMap_cons, h a (List.mem_cons_self a u),
      ih (fun x hx => h x (List.mem_cons_of_mem a hx))]

theorem assigned_round (s : GameSimulation) (l : List Nat)
    (h : ∀ eid ∈ l, ∃ j, firstMatchIdx s (getE s eid) = some j ∧
      (rosterVals s).get? j = some (getE s eid)) :
    ((l.filterMap (fun eid =>
        ((((rosterVals s).map employee_to_dict).findIdx? (fun d =>
          d.name == some (.pyStr (getE s eid).name) &&
          d.role == some (.pyStr (getE s eid).role))).map (fun i => (i : Int))))).map
      (fun i => PyVal.pyInt i)).filterMap (fun v =>
        match v with
        | .pyInt n => if 0 ≤ n ∧ n < ((rosterVals s).length : Int) then
            some n.toNat else none
        | _ => none) =
    l.filterMap (fun eid => firstMatchIdx s (getE s eid)) := by
  rw [List.filterMap_map, List.filterMap_filterMap]
  refine filterMap_congr_mem _ _ l (fun eid hmem => ?_)
  obtain ⟨j, hj, hget⟩ := h eid hmem
  have hlt : j < (rosterVals s).length := (List.get?_eq_some.mp hget).1
  rw [docs_findIdx, hj]
  show ((some ((j : Int))).bind _) = some j
  rw [Option.some_bind]
  show (if 0 ≤ (j : Int) ∧ (j : Int) < ((rosterVals s).length : Int) then
    some (j : Int).toNat else none) = some j
  rw [if_pos ⟨Int.ofNat_nonneg j, by exact_mod_cast hlt⟩]
  simp

theorem project_round_trip (s : GameSimulation) (pid : Nat)
    (h : ∀ eid ∈ (getP s pid).assigned_employees,
      ∃ j, firstMatchIdx s (getE s eid) = some j ∧
        (rosterVals s).get? j = some (getE s eid)) :
    project_from_dict (project_to_dict s (getP s pid)
        ((rosterVals s).map employee_to_dict)) (rosterVals s).length =
      .ok { getP s pid with assigned_employees :=
        ((getP s pid).assigned_employees.filterMap
          (fun eid => firstMatchIdx s (getE s eid))) } := by
  have h1 : project_from_dict (project_to_dict s (getP s pid)
      ((rosterVals s).map employee_to_dict)) (rosterVals s).length =
      .ok { getP s pid with assigned_employees :=
        (((getP s pid).assigned_employees.filterMap (fun eid =>
          ((((rosterVals s).map employee_to_dict).findIdx? (fun d =>
            d.name == some (.pyStr (getE s eid).name) &&
            d.role == some (.pyStr (getE s eid).role))).map (fun i => (i : Int))))).map
          (fun i => PyVal.pyInt i)).filterMap (fun v =>
            match v with
            | .pyInt n => if 0 ≤ n ∧ n < ((rosterVals s).length : Int) then
                some n.toNat else none
            | _ => none) } := rfl
  rw [h1, assigned_round s _ h]

theorem mapM_project_round (s : GameSimulation) (l : List Nat)
    (h : ∀ pid ∈ l, ∀ eid ∈ (getP s pid).assigned_employees,
      ∃ j, firstMatchIdx s (getE s eid) = some j ∧
        (rosterVals s).get? j = some (getE s eid)) :
    (l.map (fun pid => project_to_dict s (getP s pid)
        ((rosterVals s).map employee_to_dict))).mapM
      (fun pd => project_from_dict pd (rosterVals s).length) =
    .ok (l.map (fun pid => { getP s pid with assigned_employees :=
      ((getP s pid).assigned_employees.filterMap
        (fun eid => firstMatchIdx s (getE s eid))) })) := by
  induction l with
  | nil => rfl
  | cons pid u ih =>
    rw [List.map_cons, List.mapM_cons,
      project_round_trip s pid (h pid (List.mem_cons_self pid u)),
      ih (fun q hq => h q (List.mem_cons_of_mem pid hq))]
    rfl

theorem obs_assigned_round (s : GameSimulation) (l : List Nat)
    (h : ∀ eid ∈ l, ∃ j, firstMatchIdx s (getE s eid) = some j ∧
      (rosterVals s).get? j = some (getE s eid)) :
    (l.filterMap (fun eid => firstMatchIdx s (getE s eid))).map
      (fun j => (rosterVals s).getD j defaultEmployee) = l.map (getE s) := by
  induction l with
  | nil => rfl
  | cons eid u ih =>
    obtain ⟨j, hj, hget⟩ := h eid (List.mem_cons_self eid u)
    rw [List.filterMap_cons, hj, List.map_cons, List.map_cons,
      ih (fun x hx => h x (List.mem_cons_of_mem eid hx))]
    congr 1
    rw [List.getD_eq_getD_get?, hget]
    rfl

/-- C1: serialization round trip. As literally stated the claim fails
(see `round_trip_counterexample`: an assigned employee absent from the
roster is silently dropped by `_project_to_dict`). Amended: whenever
every employee assigned to any project or finished project has a first
name-and-role roster match carrying its exact value (`RefOK`),
`from_dict (to_dict s)` succeeds and the restored simulation is
observationally identical to the original: same week, year, trend,
config, studio name, cash, reputation, same dereferenced employee
roster (every name, role, skill, salary and fatigue), and every
project and finished project carries the same scalar fields and an
assigned-employee list resolving to the same roster member values. -/
theorem round_trip (s : GameSimulation) (h : RefOK s) :
    ∃ s2, from_dict (to_dict s) = .ok s2 ∧ obs s2 = obs s := by
  have hP : ∀ pid ∈ s.studio.projects, ∀ eid ∈ (getP s pid).assigned_employees,
      ∃ j, firstMatchIdx s (getE s eid) = some j ∧
        (rosterVals s).get? j = some (getE s eid) :=
    fun pid hp => h pid (List.mem_append_left _ hp)
  have hF : ∀ pid ∈ s.studio.finished_projects,
      ∀ eid ∈ (getP s pid).assigned_employees,
      ∃ j, firstMatchIdx s (getE s eid) = some j ∧
        (rosterVals s).get? j = some (getE s eid) :=
    fun pid hp => h pid (List.mem_append_right _ hp)
  have hdocs : s.studio.employees.map (fun eid => employee_to_dict (getE s eid)) =
      (rosterVals s).map employee_to_dict := by
    unfold rosterVals
    rw [List.map_map]
    rfl
  refine ⟨restoreSim s, ?_, ?_⟩
  · simp only [from_dict, to_dict, Option.getD_some, hdocs, mapM_employee_round,
      mapM_project_round s s.studio.projects hP,
      mapM_project_round s s.studio.finished_projects hF,
      pyToInt, except_bind_ok]
    rfl
  · simp only [obs, ObsSim.mk.injEq]
    refine ⟨rfl, rfl, rfl, rfl, rfl, rfl, rfl, ?_, ?_, ?_⟩
    · show (List.range (rosterVals s).length).map
        (fun i => (rosterVals s).getD i defaultEmployee) =
        s.studio.employees.map (getE s)
      rw [range_map_getD]
      rfl
    · show (List.range (s.studio.projects.map (restoreP s)).length).map
        (obsProject (restoreSim s)) = s.studio.projects.map (obsProject s)
      refine List.ext_get (by simp) ?_
      intro i h1 h2
      simp only [List.get_eq_getElem, List.getElem_map, List.getElem_range]
      have hi : i < s.studio.projects.length := by simpa using h1
      have hgp : getP (restoreSim s) i = restoreP s (s.studio.projects[i]) := by
        show (s.studio.projects.map (restoreP s) ++
          s.studio.finished_projects.map (restoreP s)).getD i defaultProject =
          restoreP s (s.studio.projects[i])
        rw [List.getD_append _ _ _ _ (by simpa using hi)]
        rw [List.getD_eq_getElem _ _ (by simpa using hi)]
        simp
      simp only [obsProject]
      rw [hgp]
      simp only [ObsProject.mk.injEq]
      refine ⟨rfl, rfl, rfl, rfl, rfl, rfl, rfl, rfl, rfl, rfl, ?_⟩
      show ((getP s (s.studio.projects[i])).assigned_employees.filterMap
        (fun eid => firstMatchIdx s (getE s eid))).map
        (fun j => (rosterVals s).getD j defaultEmployee) =
        (getP s (s.studio.projects[i])).assigned_employees.map (getE s)
      exact obs_assigned_round s _ (hP _ (List.getElem_mem _))
    · show ((List.range (s.studio.finished_projects.map (restoreP s)).length).map
        (fun j => j + (s.studio.projects.map (restoreP s)).length)).map
        (obsProject (restoreSim s)) =
        s.studio.finished_projects.map (obsProject s)
      refine List.ext_get (by simp) ?_
      intro i h1 h2
      simp only [List.get_eq_getElem, List.getElem_map, List.getElem_range]
      have hi : i < s.studio.finished_projects.length := by simpa using h2
      have hgp : getP (restoreSim s)
          (i + (s.studio.projects.map (restoreP s)).length) =
          restoreP s (s.studio.finished_projects[i]) := by
        show (s.studio.projects.map (restoreP s) ++
          s.studio.finished_projects.map (restoreP s)).getD
          (i + (s.studio.projects.map (restoreP s)).length) defaultProject =
          restoreP s (s.studio.finished_projects[i])
        rw [List.getD_append_right _ _ _ _ (by omega)]
        rw [Nat.add_sub_cancel]
        rw [List.getD_eq_getElem _ _ (by simpa using hi)]
        simp
      simp only [obsProject]
      rw [hgp]
      simp only [ObsProject.mk.injEq]
      refine ⟨rfl, rfl, rfl, rfl, rfl, rfl, rfl, rfl, rfl, rfl, ?_⟩
      show ((getP s (s.studio.finished_projects[i])).assigned_employees.filterMap
        (fun eid => firstMatchIdx s (getE s eid))).map
        (fun j => (rosterVals s).getD j defaultEmployee) =
        (getP s (s.studio.finished_projects[i])).assigned_employees.map (getE s)
      exact obs_assigned_round s _ (hF _ (List.getElem_mem _))

/-- C1 counterexample: in `c1Sim` the single project's assigned
employee (arena cell 1, name "b") is not referenced by the studio
roster, so `_project_to_dict` finds no name-and-role match and drops
the reference: the round trip succeeds but the restored project has an
empty assigned list, so the reference topology is not reproduced. -/
theorem round_trip_counterexample :
    from_dict (to_dict c1Sim) = .ok (restoreSim c1Sim) ∧
      obs (restoreSim c1Sim) ≠ obs c1Sim := by
  constructor
  · rfl
  · intro hcontra
    have h1 : (obs (restoreSim c1Sim)).projects.map
        (fun p => p.assigned.length) = [0] := rfl
    have h2 : (obs c1Sim).projects.map
        (fun p => p.assigned.length) = [1] := rfl
    rw [hcontra, h2] at h1
    simp at h1

/-- C1 witness: `c1WSim` satisfies `RefOK` (its one assigned employee
is roster position 0 with matching name and role), and the round trip
reproduces the observable state. -/
theorem round_trip_witness :
    RefOK c1WSim ∧ ∃ s2, from_dict (to_dict c1WSim) = .ok s2 ∧
      obs s2 = obs c1WSim := by
  have href : RefOK c1WSim := by
    intro pid hpid eid heid
    have hy : c1WSim.studio.projects ++ c1WSim.studio.finished_projects
        = [0] := rfl
    rw [hy] at hpid
    have hp : pid = 0 := by simpa using hpid
    subst hp
    have hx : (getP c1WSim 0).assigned_employees = [0] := rfl
    rw [hx] at heid
    have he : eid = 0 := by simpa using heid
    subst he
    exact ⟨0, rfl, rfl⟩
  exact ⟨href, round_trip c1WSim href⟩
